import Mathlib

/-!
# Verification of the CSS color analyzer (`analyzer.py`)

This file is a shallow embedding of the core of `analyzer.py`:

* the color model (`normalize_hex_color`, `hex_to_rgb`, `rgb_to_hsl`,
  `determine_color_category`, `format_of_color`);
* the regex-driven extractor (`extract_colors_from_content` together with
  character-level models of the five color regexes and of the named-color
  alternation, reproducing `re.finditer` left-to-right non-overlapping
  scanning);
* the aggregator (`analyze_file`, `process_files`);
* the polling watch loop (`watch_files`).

Modelling conventions:

* Python machine floats are modelled by exact rationals (`ℚ`); the
  `colorsys` functions `rgb_to_hls` and `hls_to_rgb` are transcribed
  literally over `ℚ`.  `int(...)` truncation toward zero is `pyInt`.
* Python strings are Lean `String`s; character classes (`\d`, `\s`, `\w`,
  `str.lower`) are modelled over their ASCII meaning, which covers every
  character the patterns can match.
* Raising code is modelled by `Except`/`Option` results.  The rgba and
  hsla patterns have *five* capturing groups — the alpha alternation
  `(0?\.\d+|1(\.0)?|0)` contains the nested group `(\.0)` — so the
  four-name unpackings `r, g, b, a = match.groups()` and
  `h, s, l, a = match.groups()` raise `ValueError` on every rgba/hsla
  match; `extract_colors_from_content` therefore returns `Except`,
  erring exactly when the content has an rgba or hsla match.
* File reading is modelled by a lookup function `String → Option String`
  (`none` = the read raised); `analyze_file` catches both the read
  failure and the extraction `ValueError`, and returns the extraction
  result together with the list of messages printed to stderr, keeping
  the error channel separate from the report data.
* Modification times in the watch loop are naturals; polling a file is a
  function `String → Option Nat` (`none` = `os.path.getmtime` raised).
-/

set_option allowUnsafeReducibility true

attribute [semireducible] Rat.mul Rat.add Rat.sub Rat.inv

/-! ## Character helpers (ASCII models of `\d`, `\s`, `\w`, hex digits, `str.lower`) -/

/-- ASCII decimal digit, the `\d` class. -/
def isDigitC (c : Char) : Bool := 48 ≤ c.toNat && c.toNat ≤ 57

/-- ASCII hexadecimal digit, the `[0-9a-fA-F]` class. -/
def isHexDigitC (c : Char) : Bool :=
  (48 ≤ c.toNat && c.toNat ≤ 57) || (97 ≤ c.toNat && c.toNat ≤ 102) ||
    (65 ≤ c.toNat && c.toNat ≤ 70)

/-- Lowercase hexadecimal digit (`[0-9a-f]`), used by the canonical-color
invariant. -/
def isLowerHexDigit (c : Char) : Bool :=
  (48 ≤ c.toNat && c.toNat ≤ 57) || (97 ≤ c.toNat && c.toNat ≤ 102)

/-- ASCII whitespace, the `\s` class. -/
def isSpaceC (c : Char) : Bool :=
  c.toNat = 32 || c.toNat = 9 || c.toNat = 10 || c.toNat = 11 || c.toNat = 12 || c.toNat = 13

/-- ASCII word character, the `\w` class used by `\b` word boundaries. -/
def isWordChar (c : Char) : Bool :=
  (48 ≤ c.toNat && c.toNat ≤ 57) || (65 ≤ c.toNat && c.toNat ≤ 90) ||
    (97 ≤ c.toNat && c.toNat ≤ 122) || c.toNat = 95

/-- ASCII model of Python `str.lower` on a single character. -/
def pyToLower (c : Char) : Char :=
  if 65 ≤ c.toNat && c.toNat ≤ 90 then Char.ofNat (c.toNat + 32) else c

/-- Numeric value of a decimal digit string, as Python `int(s)` on a `\d+`
group (arbitrary precision, never negative). -/
def natOfDigits (ds : List Char) : Nat :=
  ds.foldl (fun a c => 10 * a + (c.toNat - 48)) 0

/-- Value of one hexadecimal digit character. -/
def hexDigitVal (c : Char) : Nat :=
  if 48 ≤ c.toNat && c.toNat ≤ 57 then c.toNat - 48
  else if 97 ≤ c.toNat && c.toNat ≤ 102 then c.toNat - 87
  else if 65 ≤ c.toNat && c.toNat ≤ 70 then c.toNat - 55
  else 0

/-- `int(s, 16)` on a nonempty all-hex-digit string (no sign). -/
def hexNatOfChars (ds : List Char) : Option Nat :=
  if ds ≠ [] ∧ ds.all isHexDigitC then
    some (ds.foldl (fun a c => 16 * a + hexDigitVal c) 0)
  else none

/-- Python `int(s, 16)`: an optional minus sign followed by hex digits;
anything else raises (`none`). -/
def pyIntHexChars (ds : List Char) : Option Int :=
  match ds with
  | c :: rest =>
    if c = '-' then (hexNatOfChars rest).map (fun n => -(n : Int))
    else (hexNatOfChars (c :: rest)).map (fun n => (n : Int))
  | [] => none

/-! ## Python `%x` formatting -/

/-- Lowercase hexadecimal digit character for a value `< 16`. -/
def hexDigitChar (n : Nat) : Char :=
  if n < 10 then Char.ofNat (48 + n) else Char.ofNat (87 + n)

/-- Fuelled most-significant-first hex digit expansion. -/
def hexDigitsAux : Nat → Nat → List Char
  | 0, _ => []
  | fuel + 1, n => if n = 0 then [] else hexDigitsAux fuel (n / 16) ++ [hexDigitChar (n % 16)]

/-- Lowercase hex digits of a natural, no leading zeros (`"0"` for zero),
as Python `format(n, 'x')` for `n ≥ 0`. -/
def hexDigitsNat (n : Nat) : List Char :=
  if n = 0 then ['0'] else hexDigitsAux n n

/-- Python `format(n, '02x')`: lowercase hex, zero-padded to width 2; a
negative value is rendered with a leading minus (the width counts the
sign), exactly as f-string `{n:02x}` behaves. -/
def pyFmt02xL (n : Int) : List Char :=
  if n < 0 then '-' :: hexDigitsNat (-n).toNat
  else if (hexDigitsNat n.toNat).length = 1 then '0' :: hexDigitsNat n.toNat
  else hexDigitsNat n.toNat

/-! ## `colorsys` over exact rationals -/

/-- Python `x % 1.0` (floor-mod), producing a value in `[0, 1)`. -/
def qmod1 (x : ℚ) : ℚ := x - ⌊x⌋

/-- Python `int(x)`: truncation toward zero. -/
def pyInt (q : ℚ) : Int := if 0 ≤ q then ⌊q⌋ else -⌊-q⌋

/-- `colorsys.rgb_to_hls`, transcribed over `ℚ`. -/
def rgb_to_hls (r g b : ℚ) : ℚ × ℚ × ℚ :=
  let maxc := max r (max g b)
  let minc := min r (min g b)
  let l := (minc + maxc) / 2
  if minc = maxc then (0, l, 0)
  else
    let s := if l ≤ 1/2 then (maxc - minc) / (maxc + minc)
             else (maxc - minc) / (2 - maxc - minc)
    let rc := (maxc - r) / (maxc - minc)
    let gc := (maxc - g) / (maxc - minc)
    let bc := (maxc - b) / (maxc - minc)
    let h := if r = maxc then bc - gc
             else if g = maxc then 2 + rc - gc
             else 4 + gc - rc
    (qmod1 (h / 6), l, s)

/-- `colorsys._v`, transcribed over `ℚ`. -/
def hls_v (m1 m2 hue : ℚ) : ℚ :=
  let hue' := qmod1 hue
  if hue' < 1/6 then m1 + (m2 - m1) * hue' * 6
  else if hue' < 1/2 then m2
  else if hue' < 2/3 then m1 + (m2 - m1) * (2/3 - hue') * 6
  else m1

/-- `colorsys.hls_to_rgb`, transcribed over `ℚ`. -/
def hls_to_rgb (h l s : ℚ) : ℚ × ℚ × ℚ :=
  if s = 0 then (l, l, l)
  else
    let m2 := if l ≤ 1/2 then l * (1 + s) else l + s - l * s
    let m1 := 2 * l - m2
    (hls_v m1 m2 (h + 1/3), hls_v m1 m2 h, hls_v m1 m2 (h - 1/3))

/-! ## Color model (`analyzer.py` lines 74–153) -/

/-- `normalize_hex_color`: lowercase, and expand a 3-digit shorthand by
doubling each digit. -/
def normalize_hex_color (hex_color : String) : String :=
  let ld := hex_color.data.map pyToLower
  if ld.length = 4 then ⟨'#' :: (ld.drop 1).flatMap (fun c => [c, c])⟩
  else ⟨ld⟩

/-- `hex_to_rgb`: parse the three two-hex-digit slices `[1:3]`, `[3:5]`,
`[5:7]` of the normalized form; a slice that `int(_, 16)` cannot parse
raises (`none`). -/
def hex_to_rgb (hex_color : String) : Option (Int × Int × Int) :=
  let h := (normalize_hex_color hex_color).data.drop 1
  do
    let r ← pyIntHexChars (h.take 2)
    let g ← pyIntHexChars ((h.drop 2).take 2)
    let b ← pyIntHexChars ((h.drop 4).take 2)
    pure (r, g, b)

/-- `rgb_to_hsl`: scale to `[0,1]`, convert via `colorsys.rgb_to_hls`, and
truncate `h*360`, `s*100`, `l*100` to integers with `int(...)`. -/
def rgb_to_hsl (r g b : Int) : Int × Int × Int :=
  let hls := rgb_to_hls ((r : ℚ) / 255) ((g : ℚ) / 255) ((b : ℚ) / 255)
  (pyInt (hls.1 * 360), pyInt (hls.2.2 * 100), pyInt (hls.2.1 * 100))

/-- `determine_color_category`: grayscale thresholds on saturation and
lightness first, then hue buckets. -/
def determine_color_category (hex_color : String) : Option String := do
  let (r, g, b) ← hex_to_rgb hex_color
  let hsl := rgb_to_hsl r g b
  let h := hsl.1
  let s := hsl.2.1
  let l := hsl.2.2
  pure <|
    if s < 10 then
      if l < 10 then "black" else if l > 90 then "white" else "gray"
    else if h < 15 ∨ h ≥ 345 then "red"
    else if h < 45 then "orange"
    else if h < 75 then "yellow"
    else if h < 165 then "green"
    else if h < 195 then "teal"
    else if h < 255 then "blue"
    else if h < 315 then "purple"
    else "pink"

/-- Python `str.startswith`, character by character. -/
def startsWithL : List Char → List Char → Bool
  | _, [] => true
  | [], _ :: _ => false
  | c :: cs, p :: ps => c = p && startsWithL cs ps

/-- `format_of_color`: sniffing of a literal spelling by its leading
characters (`color.startswith(...)` in source order). -/
def format_of_color (color : String) : String :=
  if startsWithL color.data ['#'] then "hex"
  else if startsWithL color.data ['r', 'g', 'b', '('] then "rgb"
  else if startsWithL color.data ['r', 'g', 'b', 'a', '('] then "rgba"
  else if startsWithL color.data ['h', 's', 'l', '('] then "hsl"
  else if startsWithL color.data ['h', 's', 'l', 'a', '('] then "hsla"
  else "named"

/-- The `NAMED_COLORS` table, in source order. -/
def NAMED_COLORS : List (String × String) :=
  [("aliceblue", "#f0f8ff"), ("antiquewhite", "#faebd7"), ("aqua", "#00ffff"),
   ("aquamarine", "#7fffd4"), ("azure", "#f0ffff"), ("beige", "#f5f5dc"),
   ("bisque", "#ffe4c4"), ("black", "#000000"), ("blanchedalmond", "#ffebcd"),
   ("blue", "#0000ff"), ("blueviolet", "#8a2be2"), ("brown", "#a52a2a"),
   ("burlywood", "#deb887"), ("cadetblue", "#5f9ea0"), ("chartreuse", "#7fff00"),
   ("chocolate", "#d2691e"), ("coral", "#ff7f50"), ("cornflowerblue", "#6495ed"),
   ("cornsilk", "#fff8dc"), ("crimson", "#dc143c"), ("cyan", "#00ffff"),
   ("darkblue", "#00008b"), ("darkcyan", "#008b8b"), ("darkgoldenrod", "#b8860b"),
   ("darkgray", "#a9a9a9"), ("darkgreen", "#006400"), ("darkgrey", "#a9a9a9"),
   ("darkkhaki", "#bdb76b"), ("darkmagenta", "#8b008b"), ("darkolivegreen", "#556b2f"),
   ("darkorange", "#ff8c00"), ("darkorchid", "#9932cc"), ("darkred", "#8b0000"),
   ("darksalmon", "#e9967a"), ("darkseagreen", "#8fbc8f"), ("darkslateblue", "#483d8b"),
   ("darkslategray", "#2f4f4f"), ("darkslategrey", "#2f4f4f"), ("darkturquoise", "#00ced1"),
   ("darkviolet", "#9400d3"), ("deeppink", "#ff1493"), ("deepskyblue", "#00bfff"),
   ("dimgray", "#696969"), ("dimgrey", "#696969"), ("dodgerblue", "#1e90ff"),
   ("firebrick", "#b22222"), ("floralwhite", "#fffaf0"), ("forestgreen", "#228b22"),
   ("fuchsia", "#ff00ff"), ("gainsboro", "#dcdcdc"), ("ghostwhite", "#f8f8ff"),
   ("gold", "#ffd700"), ("goldenrod", "#daa520"), ("gray", "#808080"),
   ("green", "#008000"), ("greenyellow", "#adff2f"), ("grey", "#808080"),
   ("honeydew", "#f0fff0"), ("hotpink", "#ff69b4"), ("indianred", "#cd5c5c"),
   ("indigo", "#4b0082"), ("ivory", "#fffff0"), ("khaki", "#f0e68c"),
   ("lavender", "#e6e6fa"), ("lavenderblush", "#fff0f5"), ("lawngreen", "#7cfc00"),
   ("lemonchiffon", "#fffacd"), ("lightblue", "#add8e6"), ("lightcoral", "#f08080"),
   ("lightcyan", "#e0ffff"), ("lightgoldenrodyellow", "#fafad2"), ("lightgray", "#d3d3d3"),
   ("lightgreen", "#90ee90"), ("lightgrey", "#d3d3d3"), ("lightpink", "#ffb6c1"),
   ("lightsalmon", "#ffa07a"), ("lightseagreen", "#20b2aa"), ("lightskyblue", "#87cefa"),
   ("lightslategray", "#778899"), ("lightslategrey", "#778899"), ("lightsteelblue", "#b0c4de"),
   ("lightyellow", "#ffffe0"), ("lime", "#00ff00"), ("limegreen", "#32cd32"),
   ("linen", "#faf0e6"), ("magenta", "#ff00ff"), ("maroon", "#800000"),
   ("mediumaquamarine", "#66cdaa"), ("mediumblue", "#0000cd"), ("mediumorchid", "#ba55d3"),
   ("mediumpurple", "#9370db"), ("mediumseagreen", "#3cb371"), ("mediumslateblue", "#7b68ee"),
   ("mediumspringgreen", "#00fa9a"), ("mediumturquoise", "#48d1cc"), ("mediumvioletred", "#c71585"),
   ("midnightblue", "#191970"), ("mintcream", "#f5fffa"), ("mistyrose", "#ffe4e1"),
   ("moccasin", "#ffe4b5"), ("navajowhite", "#ffdead"), ("navy", "#000080"),
   ("oldlace", "#fdf5e6"), ("olive", "#808000"), ("olivedrab", "#6b8e23"),
   ("orange", "#ffa500"), ("orangered", "#ff4500"), ("orchid", "#da70d6"),
   ("palegoldenrod", "#eee8aa"), ("palegreen", "#98fb98"), ("paleturquoise", "#afeeee"),
   ("palevioletred", "#db7093"), ("papayawhip", "#ffefd5"), ("peachpuff", "#ffdab9"),
   ("peru", "#cd853f"), ("pink", "#ffc0cb"), ("plum", "#dda0dd"),
   ("powderblue", "#b0e0e6"), ("purple", "#800080"), ("rebeccapurple", "#663399"),
   ("red", "#ff0000"), ("rosybrown", "#bc8f8f"), ("royalblue", "#4169e1"),
   ("saddlebrown", "#8b4513"), ("salmon", "#fa8072"), ("sandybrown", "#f4a460"),
   ("seagreen", "#2e8b57"), ("seashell", "#fff5ee"), ("sienna", "#a0522d"),
   ("silver", "#c0c0c0"), ("skyblue", "#87ceeb"), ("slateblue", "#6a5acd"),
   ("slategray", "#708090"), ("slategrey", "#708090"), ("snow", "#fffafa"),
   ("springgreen", "#00ff7f"), ("steelblue", "#4682b4"), ("tan", "#d2b48c"),
   ("teal", "#008080"), ("thistle", "#d8bfd8"), ("tomato", "#ff6347"),
   ("turquoise", "#40e0d0"), ("violet", "#ee82ee"), ("wheat", "#f5deb3"),
   ("white", "#ffffff"), ("whitesmoke", "#f5f5f5"), ("yellow", "#ffff00"),
   ("yellowgreen", "#9acd32")]

/-! ## Scanner infrastructure (`re.finditer` over one pattern) -/

/-- First-key association-list lookup (Python `dict` access / `in`). -/
def lookupA {α : Type} : List (String × α) → String → Option α
  | [], _ => none
  | (k, v) :: rest, key => if key = k then some v else lookupA rest key

/-- Keys of an association list, in insertion order. -/
def keysOf {α : Type} (l : List (String × α)) : List String := l.map Prod.fst

/-- `\b` looking rightward: end of input or a non-word character. -/
def boundaryR (cs : List Char) : Bool :=
  match cs with
  | [] => true
  | c :: _ => !isWordChar c

/-- Match a literal character sequence, returning the rest. -/
def expectStr : List Char → List Char → Option (List Char)
  | [], cs => some cs
  | _ :: _, [] => none
  | p :: ps, c :: cs => if c = p then expectStr ps cs else none

/-- Greedy span of decimal digits. -/
def spanDigits : List Char → List Char × List Char
  | [] => ([], [])
  | c :: rest =>
    if isDigitC c then
      let (ds, r) := spanDigits rest
      (c :: ds, r)
    else ([], c :: rest)

/-- `\d+`: at least one digit, greedy, returning its numeric value. -/
def digits1 (cs : List Char) : Option (Nat × List Char) :=
  let (ds, r) := spanDigits cs
  if ds.isEmpty then none else some (natOfDigits ds, r)

/-- `\s*`. -/
def skipSpacesL (cs : List Char) : List Char := cs.dropWhile isSpaceC

/-- The alpha alternation `(0?\.\d+|1(\.0)?|0)` of the rgba/hsla patterns,
with the regex's alternative order and backtracking behavior (a branch
whose continuation `\s*\)` cannot match is equivalent to failure here,
because the remaining input then starts with a character no other
alternative accepts either). Returns the matched text. -/
def matchAlpha : List Char → Option (List Char × List Char)
  | '0' :: '.' :: rest =>
    (let (ds, r) := spanDigits rest
     if ds.isEmpty then none else some ('0' :: '.' :: ds, r))
  | '.' :: rest =>
    (let (ds, r) := spanDigits rest
     if ds.isEmpty then none else some ('.' :: ds, r))
  | '1' :: '.' :: '0' :: rest => some (['1', '.', '0'], rest)
  | '1' :: rest => some (['1'], rest)
  | '0' :: rest => some (['0'], rest)
  | _ => none

/-- Generic `re.finditer` driver: try the matcher at each position, left to
right; on success continue after the match, otherwise advance one
character. The fuel is the input length (each step consumes at least one
unit of fuel, and every match consumes at least one character). -/
def scanAux {α : Type} (m : List Char → Option (α × List Char)) : Nat → List Char → List α
  | 0, _ => []
  | _ + 1, [] => []
  | fuel + 1, c :: cs =>
    match m (c :: cs) with
    | some (a, rest) => a :: scanAux m fuel rest
    | none => scanAux m fuel cs

/-- All matches of one pattern over the input, as `re.finditer`. -/
def scan {α : Type} (m : List Char → Option (α × List Char)) (cs : List Char) : List α :=
  scanAux m cs.length cs

/-! ## The six matchers -/

/-- The 6-digit alternative of `HEX_COLOR_REGEX`, tried after the 3-digit
alternative failed its word boundary: three further hex digits and `\b`. -/
def matchHex6 (c0 a b c : Char) (rest3 : List Char) : Option (List Char × List Char) :=
  match rest3 with
  | d :: e :: f :: rest6 =>
    if isHexDigitC d ∧ isHexDigitC e ∧ isHexDigitC f ∧ boundaryR rest6 then
      some ([c0, a, b, c, d, e, f], rest6)
    else none
  | _ => none

/-- A match of `HEX_COLOR_REGEX = #([0-9a-fA-F]{3}|[0-9a-fA-F]{6})\b`:
the 3-digit alternative is tried first; on a failed word boundary the
engine falls back to the 6-digit alternative. Returns the raw match. -/
def matchHexAt (cs : List Char) : Option (List Char × List Char) :=
  match cs with
  | c0 :: a :: b :: c :: rest3 =>
    if c0 = '#' ∧ isHexDigitC a ∧ isHexDigitC b ∧ isHexDigitC c then
      if boundaryR rest3 then some ([c0, a, b, c], rest3)
      else matchHex6 c0 a b c rest3
    else none
  | _ => none

/-- A match of `RGB_COLOR_REGEX` with its raw text and the three integer
groups. -/
structure RGBMatch where
  raw : List Char
  r : Nat
  g : Nat
  b : Nat
deriving DecidableEq, Repr

/-- A match of `RGBA_COLOR_REGEX`; the alpha group is kept as raw text (the
code parses and then discards it). -/
structure RGBAMatch where
  raw : List Char
  r : Nat
  g : Nat
  b : Nat
  a : List Char
deriving DecidableEq, Repr

/-- A match of `HSL_COLOR_REGEX` with its three integer groups. -/
structure HSLMatch where
  raw : List Char
  h : Nat
  s : Nat
  l : Nat
deriving DecidableEq, Repr

/-- A match of `HSLA_COLOR_REGEX`. -/
structure HSLAMatch where
  raw : List Char
  h : Nat
  s : Nat
  l : Nat
  a : List Char
deriving DecidableEq, Repr

/-- Body shared by rgb/rgba/hsl/hsla: `\s* \d+ \s*` then a given suffix. -/
def matchNumComma (cs : List Char) : Option (Nat × List Char) := do
  let (n, cs1) ← digits1 (skipSpacesL cs)
  let cs2 ← expectStr [','] (skipSpacesL cs1)
  pure (n, cs2)

/-- `rgb\(\s*(\d+)\s*,\s*(\d+)\s*,\s*(\d+)\s*\)`. -/
def matchRGBAt (cs : List Char) : Option (RGBMatch × List Char) := do
  let cs1 ← expectStr ['r', 'g', 'b', '('] cs
  let (r, cs2) ← matchNumComma cs1
  let (g, cs3) ← matchNumComma cs2
  let (b, cs4) ← digits1 (skipSpacesL cs3)
  let rest ← expectStr [')'] (skipSpacesL cs4)
  pure ({ raw := cs.take (cs.length - rest.length), r := r, g := g, b := b }, rest)

/-- `rgba\(\s*(\d+)\s*,\s*(\d+)\s*,\s*(\d+)\s*,\s*(0?\.\d+|1(\.0)?|0)\s*\)`. -/
def matchRGBAAt (cs : List Char) : Option (RGBAMatch × List Char) := do
  let cs1 ← expectStr ['r', 'g', 'b', 'a', '('] cs
  let (r, cs2) ← matchNumComma cs1
  let (g, cs3) ← matchNumComma cs2
  let (b, cs4) ← matchNumComma cs3
  let (al, cs5) ← matchAlpha (skipSpacesL cs4)
  let rest ← expectStr [')'] (skipSpacesL cs5)
  pure ({ raw := cs.take (cs.length - rest.length), r := r, g := g, b := b, a := al }, rest)

/-- `\s* \d+ % \s* ,` — a percentage group followed by a comma. -/
def matchPctComma (cs : List Char) : Option (Nat × List Char) := do
  let (n, cs1) ← digits1 (skipSpacesL cs)
  let cs2 ← expectStr ['%'] cs1
  let cs3 ← expectStr [','] (skipSpacesL cs2)
  pure (n, cs3)

/-- `hsl\(\s*(\d+)\s*,\s*(\d+)%\s*,\s*(\d+)%\s*\)`. -/
def matchHSLAt (cs : List Char) : Option (HSLMatch × List Char) := do
  let cs1 ← expectStr ['h', 's', 'l', '('] cs
  let (h, cs2) ← matchNumComma cs1
  let (s, cs3) ← matchPctComma cs2
  let (l, cs4) ← digits1 (skipSpacesL cs3)
  let cs5 ← expectStr ['%'] cs4
  let rest ← expectStr [')'] (skipSpacesL cs5)
  pure ({ raw := cs.take (cs.length - rest.length), h := h, s := s, l := l }, rest)

/-- `hsla\(\s*(\d+)\s*,\s*(\d+)%\s*,\s*(\d+)%\s*,\s*(0?\.\d+|1(\.0)?|0)\s*\)`. -/
def matchHSLAAt (cs : List Char) : Option (HSLAMatch × List Char) := do
  let cs1 ← expectStr ['h', 's', 'l', 'a', '('] cs
  let (h, cs2) ← matchNumComma cs1
  let (s, cs3) ← matchPctComma cs2
  let (l, cs4) ← digits1 (skipSpacesL cs3)
  let cs5 ← expectStr ['%'] cs4
  let cs6 ← expectStr [','] (skipSpacesL cs5)
  let (al, cs7) ← matchAlpha (skipSpacesL cs6)
  let rest ← expectStr [')'] (skipSpacesL cs7)
  pure ({ raw := cs.take (cs.length - rest.length), h := h, s := s, l := l, a := al }, rest)

/-- Case-insensitive match of one word with a trailing `\b`; the leading
`\b` is checked by the named scanner. -/
def matchWord : List Char → List Char → Option (List Char)
  | [], cs => if boundaryR cs then some cs else none
  | _ :: _, [] => none
  | p :: ps, c :: cs => if pyToLower c = p then matchWord ps cs else none

/-- Try each named color, in table order, at the current position (regex
alternation order; at most one alternative can match because every
alternative is word-bounded on both sides). -/
def matchNamedHere : List (String × String) → List Char → Option (String × List Char)
  | [], _ => none
  | (name, _) :: rest, cs =>
    match matchWord name.data cs with
    | some rest' => some (name, rest')
    | none => matchNamedHere rest cs

/-- `re.finditer(NAMED_COLOR_REGEX, content, re.IGNORECASE)`: the boolean
tracks whether the previous character was a word character (for the
leading `\b`); a returned name is already lowercase, as
`match.group(0).lower()` produces. -/
def scanNamedAux : Nat → Bool → List Char → List String
  | 0, _, _ => []
  | _ + 1, _, [] => []
  | fuel + 1, prevWord, c :: cs =>
    if prevWord then scanNamedAux fuel (isWordChar c) cs
    else
      match matchNamedHere NAMED_COLORS (c :: cs) with
      | some (name, rest) => name :: scanNamedAux fuel true rest
      | none => scanNamedAux fuel (isWordChar c) cs

/-- All named-color matches of the content, lowercased. -/
def scanNamed (cs : List Char) : List String := scanNamedAux cs.length false cs

/-! ## The extractor (`extract_colors_from_content`, lines 156–242) -/

/-- One step of the extractor's per-format loop body: insert the canonical
key if new (starting its variation list), then append the raw literal if
not already recorded. -/
def addMatch : List (String × List String) → String → String → List (String × List String)
  | [], key, color => [(key, [color])]
  | (k, vs) :: rest, key, color =>
    if k = key then (k, if color ∈ vs then vs else vs ++ [color]) :: rest
    else (k, vs) :: addMatch rest key color

/-- `f'#{r:02x}{g:02x}{b:02x}'` on the integer groups of an rgb/rgba
match. -/
def rgbHex (r g b : Nat) : String :=
  ⟨'#' :: (pyFmt02xL (r : Int) ++ pyFmt02xL (g : Int) ++ pyFmt02xL (b : Int))⟩

/-- The hsl/hsla canonicalization: scale the integer groups, convert with
`colorsys.hls_to_rgb`, truncate each channel with `int(_ * 255)`, and
format with `%02x`. -/
def hslHex (h s l : Nat) : String :=
  let rgb := hls_to_rgb ((h : ℚ) / 360) ((l : ℚ) / 100) ((s : ℚ) / 100)
  ⟨'#' :: (pyFmt02xL (pyInt (rgb.1 * 255)) ++ pyFmt02xL (pyInt (rgb.2.1 * 255)) ++
      pyFmt02xL (pyInt (rgb.2.2 * 255)))⟩

instance {ε α : Type} [DecidableEq ε] [DecidableEq α] : DecidableEq (Except ε α) := fun a b =>
  match a, b with
  | Except.error x, Except.error y =>
    if h : x = y then Decidable.isTrue (by rw [h])
    else Decidable.isFalse (fun he => h (Except.error.inj he))
  | Except.ok x, Except.ok y =>
    if h : x = y then Decidable.isTrue (by rw [h])
    else Decidable.isFalse (fun he => h (Except.ok.inj he))
  | Except.error _, Except.ok _ => Decidable.isFalse (fun he => Except.noConfusion he)
  | Except.ok _, Except.error _ => Decidable.isFalse (fun he => Except.noConfusion he)

/-- `extract_colors_from_content`: the six format passes in source order
(hex, rgb, rgba, hsl, hsla, named), each folding its matches into the
insertion-ordered map from canonical value to variation spellings.

The rgba and hsla passes never contribute: their patterns have five
capturing groups (the alpha alternation nests the group `(\.0)`), so the
four-name unpacking `r, g, b, a = match.groups()` (resp.
`h, s, l, a = match.groups()`) raises `ValueError` on the pass's first
iteration — i.e. exactly when the pattern has at least one match — and
the partially built map is discarded with the exception. -/
def extract_colors_from_content (content : String) :
    Except String (List (String × List String)) :=
  let cs := content.data
  let cm : List (String × List String) := []
  let cm := (scan matchHexAt cs).foldl
    (fun cm raw =>
      let color : String := ⟨raw.map pyToLower⟩
      addMatch cm (normalize_hex_color color) color) cm
  let cm := (scan matchRGBAt cs).foldl
    (fun cm m => addMatch cm (rgbHex m.r m.g m.b) ⟨m.raw⟩) cm
  if scan matchRGBAAt cs = [] then
    let cm := (scan matchHSLAt cs).foldl
      (fun cm m => addMatch cm (hslHex m.h m.s m.l) ⟨m.raw⟩) cm
    if scan matchHSLAAt cs = [] then
      let cm := (scanNamed cs).foldl
        (fun cm name => addMatch cm ((lookupA NAMED_COLORS name).getD "") name) cm
      Except.ok cm
    else Except.error "too many values to unpack (expected 4)"
  else Except.error "too many values to unpack (expected 4)"

/-! ## Per-file analysis and aggregation (lines 245–309) -/

/-- The result pair of `analyze_file` on a successfully read content: the
extraction result when extraction succeeds, or — the `except` clause
catching the `ValueError` — the empty result plus a stderr line. -/
def analyze_result : Except String (List (String × List String)) → String →
    List (String × List String) × List String
  | Except.ok ext, _ => (ext, [])
  | Except.error _, file_path => ([], ["Error analyzing " ++ file_path])

/-- `analyze_file`: read and extract; on a read failure or an extraction
`ValueError` print an error to stderr and return the empty result. The
second component is the stderr channel, kept separate from analysis
data. -/
def analyze_file (fs : String → Option String) (file_path : String) :
    List (String × List String) × List String :=
  match fs file_path with
  | some content => analyze_result (extract_colors_from_content content) file_path
  | none => ([], ["Error analyzing " ++ file_path])

/-- A `ColorRecord` of the aggregation map. -/
structure ColorRecord where
  name : String
  count : Nat
  variations : List String
  unique : Bool
  color_format : String
  category : Option String
  locations : List String
deriving DecidableEq, Repr

/-- Creation of a record the first time its canonical color is seen
(the then-branch of `process_files`). -/
def freshRecord (nv : String) (file_str : String) (variations : List String) : ColorRecord :=
  { name := nv
    count := 1
    variations := variations
    unique := true
    color_format := format_of_color (variations.headD "")
    category := determine_color_category nv
    locations := [file_str] }

/-- Mutation of an existing record by a later file (the else-branch of
`process_files`). -/
def bumpRecord (rec : ColorRecord) (file_str : String) (variations : List String) : ColorRecord :=
  { rec with
    count := rec.count + 1
    variations := variations.foldl (fun vs v => if v ∈ vs then vs else vs ++ [v]) rec.variations
    locations := if file_str ∈ rec.locations then rec.locations else rec.locations ++ [file_str]
    unique := false }

/-- Fold one (key, variations) pair of a file's extraction result into the
aggregation map, preserving record positions. -/
def updateRecord : List (String × ColorRecord) → String → String → List String →
    List (String × ColorRecord)
  | [], nv, file_str, variations => [(nv, freshRecord nv file_str variations)]
  | (k, rec) :: rest, nv, file_str, variations =>
    if k = nv then (k, bumpRecord rec file_str variations) :: rest
    else (k, rec) :: updateRecord rest nv file_str variations

/-- Fold one file's extraction result into the aggregation map (the inner
loop of `process_files`). -/
def addFileColors (data : List (String × ColorRecord)) (file_str : String)
    (ext : List (String × List String)) : List (String × ColorRecord) :=
  ext.foldl (fun d e => updateRecord d e.1 file_str e.2) data

/-- The aggregation loop of `process_files` over the file list, producing
the `color_data` map. -/
def aggregate (fs : String → Option String) (files : List String) :
    List (String × ColorRecord) :=
  files.foldl (fun data p => addFileColors data p (analyze_file fs p).1) []

/-- Append a record to its category's list (the organize loop body). -/
def addToCategory (org : List (Option String × List ColorRecord)) (rec : ColorRecord) :
    List (Option String × List ColorRecord) :=
  match org with
  | [] => [(rec.category, [rec])]
  | (cat, recs) :: rest =>
    if cat = rec.category then (cat, recs ++ [rec]) :: rest
    else (cat, recs) :: addToCategory rest rec

/-- The final grouping-by-category pass of `process_files`. -/
def organize_by_category (data : List (String × ColorRecord)) :
    List (Option String × List ColorRecord) :=
  data.foldl (fun org e => addToCategory org e.2) []

/-- `process_files`: aggregate, then organize by category. -/
def process_files (fs : String → Option String) (files : List String) :
    List (Option String × List ColorRecord) :=
  organize_by_category (aggregate fs files)

/-- The stderr lines produced while processing the file list. -/
def process_files_stderr (fs : String → Option String) (files : List String) : List String :=
  files.foldl (fun log p => log ++ (analyze_file fs p).2) []

/-! ## Watch loop (`watch_files`, lines 318–351) -/

/-- Store (or overwrite) a file's recorded modification time. -/
def insertTime : List (String × Nat) → String → Nat → List (String × Nat)
  | [], f, m => [(f, m)]
  | (k, v) :: rest, f, m => if f = k then (k, m) :: rest else (k, v) :: insertTime rest f m

/-- Recorded modification time, `last_modification_times.get(file_path, 0)`. -/
def getTime (st : List (String × Nat)) (f : String) : Nat := (lookupA st f).getD 0

/-- Initialization before the loop: record each file's mtime, or 0 when
`os.path.getmtime` raises. -/
def watch_init (mt0 : String → Option Nat) (files : List String) : List (String × Nat) :=
  files.foldl (fun st f => insertTime st f ((mt0 f).getD 0)) []

/-- One iteration of the polling loop: check every file, record any
advanced timestamp, and report whether any file changed (a raised
`getmtime` is skipped). -/
def watch_step (files : List String) (poll : String → Option Nat)
    (st : List (String × Nat)) : List (String × Nat) × Bool :=
  files.foldl
    (fun acc f =>
      match poll f with
      | none => acc
      | some m => if getTime acc.1 f < m then (insertTime acc.1 f m, true) else acc)
    (st, false)

/-- The sequence of "did this iteration emit a report" flags along a trace
of polls (a report is produced exactly when `files_changed` is set). -/
def watch_emits (files : List String) (mt0 : String → Option Nat)
    (polls : List (String → Option Nat)) : List Bool :=
  (polls.foldl
    (fun acc poll =>
      let r := watch_step files poll acc.1
      (r.1, acc.2 ++ [r.2]))
    (watch_init mt0 files, [])).2

/-- The key list of an `addMatch` fold, computed from the canonical keys
alone: a key extends the list exactly when it is not already present.
Used to show the key list ignores the variation strings. -/
def keysAcc : List String → List String → List String
  | ks, [] => ks
  | ks, k :: rest => keysAcc (if k ∈ ks then ks else ks ++ [k]) rest

/-- The in-range side condition on a content string: every rgb match has
its three components in 0–255 and every hsl match has its two percentage
components in 0–100 (the hue is unconstrained: the conversion wraps it
with `% 1.0`).  The rgba/hsla matches need no condition: they never
produce a key — they make the extraction raise. -/
def ExtractInRange (content : String) : Prop :=
  (∀ m ∈ scan matchRGBAt content.data, m.r ≤ 255 ∧ m.g ≤ 255 ∧ m.b ≤ 255) ∧
  (∀ m ∈ scan matchHSLAt content.data, m.s ≤ 100 ∧ m.l ≤ 100)

instance (content : String) : Decidable (ExtractInRange content) := by
  unfold ExtractInRange; infer_instance

/-! ## Spec-side definitions (from the specification's words, for
refinement comparisons) -/

/-- The spec's CanonicalColor invariant: exactly 7 characters, `#` followed
by 6 lowercase hexadecimal digits. -/
def isCanonicalColor (s : String) : Bool :=
  match s.data with
  | c :: ds => c = '#' && ds.length = 6 && ds.all isLowerHexDigit
  | [] => false

/-- Rounding to the nearest integer (the spec's claimed numeric policy for
the hsl → hex conversion). -/
def roundNearest (q : ℚ) : Int := ⌊q + 1/2⌋

/-- Modelled from the spec: the hsl canonicalization as §4.2 words it,
"converted to RGB then to hex using the inverse of rgb_to_hsl (standard
HSL→RGB), each RGB channel *rounded to nearest integer* after scaling by
255" — differing from the source only in rounding vs truncation. -/
def spec_hslHex_rounded (h s l : Nat) : String :=
  let rgb := hls_to_rgb ((h : ℚ) / 360) ((l : ℚ) / 100) ((s : ℚ) / 100)
  ⟨'#' :: (pyFmt02xL (roundNearest (rgb.1 * 255)) ++ pyFmt02xL (roundNearest (rgb.2.1 * 255)) ++
      pyFmt02xL (roundNearest (rgb.2.2 * 255)))⟩

/-- Number of entries of the processed sequence whose extraction result
contains the color — the quantity `count` actually tracks. -/
def containCount (fs : String → Option String) (files : List String) (k : String) : Nat :=
  (files.filter (fun p => (lookupA (analyze_file fs p).1 k).isSome)).length

/-- The extraction-result variation list recorded for `k` by the first
file of the sequence that contains `k`. -/
def firstVars : (String → Option String) → List String → String → Option (List String)
  | _, [], _ => none
  | fs, p :: ps, k =>
    match lookupA (analyze_file fs p).1 k with
    | some vars => some vars
    | none => firstVars fs ps k

/-! # Theorems

## Association lists and key sets -/

@[simp] theorem keysOf_nil {α : Type} : keysOf ([] : List (String × α)) = [] := rfl

@[simp] theorem keysOf_cons {α : Type} (k : String) (v : α) (l : List (String × α)) :
    keysOf ((k, v) :: l) = k :: keysOf l := rfl

@[simp] theorem lookupA_nil {α : Type} (k : String) : lookupA ([] : List (String × α)) k = none :=
  rfl

theorem lookupA_cons {α : Type} (k k' : String) (v : α) (l : List (String × α)) :
    lookupA ((k', v) :: l) k = if k = k' then some v else lookupA l k := rfl

theorem lookupA_isSome_iff {α : Type} (l : List (String × α)) (k : String) :
    (lookupA l k).isSome = true ↔ k ∈ keysOf l := by
  induction l with
  | nil => simp
  | cons e rest ih =>
    obtain ⟨k', v⟩ := e
    by_cases h : k = k'
    · subst h; simp [lookupA_cons]
    · simp [lookupA_cons, h, ih]

theorem lookupA_mem {α : Type} {l : List (String × α)} {k : String} {v : α}
    (h : lookupA l k = some v) : (k, v) ∈ l := by
  induction l with
  | nil => simp [lookupA] at h
  | cons e rest ih =>
    obtain ⟨k', v'⟩ := e
    by_cases hk : k = k'
    · subst hk
      rw [lookupA_cons, if_pos rfl] at h
      obtain rfl : v' = v := Option.some.inj h
      exact List.mem_cons_self _ _
    · rw [lookupA_cons, if_neg hk] at h
      exact List.mem_cons_of_mem _ (ih h)

theorem keysOf_addMatch (cm : List (String × List String)) (key color : String) :
    keysOf (addMatch cm key color) =
      if key ∈ keysOf cm then keysOf cm else keysOf cm ++ [key] := by
  induction cm with
  | nil => simp [addMatch]
  | cons e rest ih =>
    obtain ⟨k, vs⟩ := e
    by_cases h : k = key
    · subst h; simp [addMatch]
    · have h2 : ¬key = k := fun hh => h hh.symm
      simp only [addMatch, if_neg h, keysOf_cons, ih, List.mem_cons, h2, false_or]
      split_ifs <;> simp

theorem lookupA_addMatch_isSome (cm : List (String × List String)) (key color k : String) :
    (lookupA (addMatch cm key color) k).isSome = true ↔
      ((lookupA cm k).isSome = true ∨ k = key) := by
  rw [lookupA_isSome_iff, lookupA_isSome_iff, keysOf_addMatch]
  split_ifs with h
  · constructor
    · exact Or.inl
    · rintro (hk | rfl)
      · exact hk
      · exact h
  · simp [List.mem_append]

theorem mem_keysAcc (k : String) :
    ∀ (keys : List String) (ks : List String), k ∈ keysAcc ks keys ↔ (k ∈ ks ∨ k ∈ keys) := by
  intro keys
  induction keys with
  | nil => intro ks; simp [keysAcc]
  | cons k0 rest ih =>
    intro ks
    by_cases h : k0 ∈ ks
    · rw [keysAcc, if_pos h, ih]
      constructor
      · rintro (hk | hk)
        · exact Or.inl hk
        · exact Or.inr (List.mem_cons_of_mem _ hk)
      · rintro (hk | hk)
        · exact Or.inl hk
        · rcases List.mem_cons.mp hk with rfl | hk
          · exact Or.inl h
          · exact Or.inr hk
    · rw [keysAcc, if_neg h, ih]
      simp only [List.mem_append, List.mem_singleton, List.mem_cons]
      tauto

theorem keysAcc_nodup :
    ∀ (keys : List String) (ks : List String), ks.Nodup → (keysAcc ks keys).Nodup := by
  intro keys
  induction keys with
  | nil => intro ks h; exact h
  | cons k0 rest ih =>
    intro ks h
    by_cases hk : k0 ∈ ks
    · rw [keysAcc, if_pos hk]; exact ih ks h
    · rw [keysAcc, if_neg hk]
      exact ih _ (by simp [List.nodup_append, h, hk])

theorem keysOf_foldl_addMatch {α : Type} (kf vf : α → String) :
    ∀ (ms : List α) (cm0 : List (String × List String)),
      keysOf (ms.foldl (fun cm x => addMatch cm (kf x) (vf x)) cm0) =
        keysAcc (keysOf cm0) (ms.map kf) := by
  intro ms
  induction ms with
  | nil => intro cm0; simp [keysAcc]
  | cons x rest ih =>
    intro cm0
    rw [List.foldl_cons, List.map_cons, keysAcc, ih, keysOf_addMatch]

theorem foldl_addMatch_isSome_mono {α : Type} (kf vf : α → String) :
    ∀ (ms : List α) (cm0 : List (String × List String)) (k : String),
      (lookupA cm0 k).isSome = true →
      (lookupA (ms.foldl (fun cm x => addMatch cm (kf x) (vf x)) cm0) k).isSome = true := by
  intro ms
  induction ms with
  | nil => intro cm0 k h; exact h
  | cons x rest ih =>
    intro cm0 k h
    rw [List.foldl_cons]
    exact ih _ _ ((lookupA_addMatch_isSome _ _ _ _).mpr (Or.inl h))

theorem foldl_addMatch_isSome_of_mem {α : Type} (kf vf : α → String) :
    ∀ (ms : List α) (cm0 : List (String × List String)) (x : α), x ∈ ms →
      (lookupA (ms.foldl (fun cm x => addMatch cm (kf x) (vf x)) cm0) (kf x)).isSome = true := by
  intro ms
  induction ms with
  | nil => intro cm0 x h; simp at h
  | cons y rest ih =>
    intro cm0 x h
    rw [List.foldl_cons]
    rcases List.mem_cons.mp h with rfl | h
    · exact foldl_addMatch_isSome_mono kf vf rest _ _
        ((lookupA_addMatch_isSome _ _ _ _).mpr (Or.inr rfl))
    · exact ih _ x h

/-! ## Scanner lemmas -/

theorem scanAux_forall {α : Type} (m : List Char → Option (α × List Char)) (P : α → Prop)
    (hm : ∀ cs a rest, m cs = some (a, rest) → P a) :
    ∀ (fuel : Nat) (cs : List Char), ∀ a ∈ scanAux m fuel cs, P a := by
  intro fuel
  induction fuel with
  | zero => intro cs a ha; simp [scanAux] at ha
  | succ n ih =>
    intro cs a ha
    cases cs with
    | nil => simp [scanAux] at ha
    | cons c rest =>
      rw [scanAux] at ha
      cases hmc : m (c :: rest) with
      | none => rw [hmc] at ha; exact ih rest a ha
      | some pr =>
        rw [hmc] at ha
        rcases List.mem_cons.mp ha with rfl | ha
        · exact hm _ _ _ hmc
        · exact ih _ a ha

theorem scan_forall {α : Type} (m : List Char → Option (α × List Char)) (P : α → Prop)
    (hm : ∀ cs a rest, m cs = some (a, rest) → P a) (cs : List Char) :
    ∀ a ∈ scan m cs, P a :=
  scanAux_forall m P hm cs.length cs

theorem matchNamedHere_mem :
    ∀ (table : List (String × String)) (cs : List Char) (name : String) (rest : List Char),
      matchNamedHere table cs = some (name, rest) → ∃ v, (name, v) ∈ table := by
  intro table
  induction table with
  | nil => intro cs name rest h; simp [matchNamedHere] at h
  | cons e tab ih =>
    intro cs name rest h
    obtain ⟨n0, v0⟩ := e
    rw [matchNamedHere] at h
    cases hw : matchWord n0.data cs with
    | some rest' =>
      rw [hw] at h
      obtain ⟨rfl, rfl⟩ : n0 = name ∧ rest' = rest := by
        have := Option.some.inj h
        exact ⟨congrArg Prod.fst this, congrArg Prod.snd this⟩
      exact ⟨v0, List.mem_cons_self _ _⟩
    | none =>
      rw [hw] at h
      obtain ⟨v, hv⟩ := ih cs name rest h
      exact ⟨v, List.mem_cons_of_mem _ hv⟩

theorem scanNamedAux_mem :
    ∀ (fuel : Nat) (prevWord : Bool) (cs : List Char) (name : String),
      name ∈ scanNamedAux fuel prevWord cs → ∃ v, (name, v) ∈ NAMED_COLORS := by
  intro fuel
  induction fuel with
  | zero => intro prevWord cs name h; simp [scanNamedAux] at h
  | succ n ih =>
    intro prevWord cs name h
    cases cs with
    | nil => simp [scanNamedAux] at h
    | cons c rest =>
      rw [scanNamedAux] at h
      by_cases hp : prevWord
      · rw [if_pos hp] at h; exact ih _ _ _ h
      · rw [if_neg hp] at h
        cases hm : matchNamedHere NAMED_COLORS (c :: rest) with
        | none => rw [hm] at h; exact ih _ _ _ h
        | some pr =>
          rw [hm] at h
          rcases List.mem_cons.mp h with rfl | h
          · exact matchNamedHere_mem _ _ _ _ (by rw [hm])
          · exact ih _ _ _ h

/-! ## Character and hex-formatting lemmas -/

theorem charToNat_ofNat_small {n : Nat} (h : n < 55296) : (Char.ofNat n).toNat = n := by
  rw [Char.ofNat, dif_pos (Or.inl h : n.isValidChar)]
  rfl

theorem pyToLower_toNat (c : Char) :
    (pyToLower c).toNat = if 65 ≤ c.toNat ∧ c.toNat ≤ 90 then c.toNat + 32 else c.toNat := by
  simp only [pyToLower, Bool.and_eq_true, decide_eq_true_eq]
  split_ifs with h
  · exact charToNat_ofNat_small (by omega)
  · rfl

theorem isLowerHexDigit_pyToLower {c : Char} (h : isHexDigitC c = true) :
    isLowerHexDigit (pyToLower c) = true := by
  have ht := pyToLower_toNat c
  simp only [isHexDigitC, Bool.or_eq_true, Bool.and_eq_true, decide_eq_true_eq] at h
  simp only [isLowerHexDigit, Bool.or_eq_true, Bool.and_eq_true, decide_eq_true_eq]
  split at ht <;> omega

theorem pyToLower_of_lower {c : Char} (h : isLowerHexDigit c = true) : pyToLower c = c := by
  simp only [isLowerHexDigit, Bool.or_eq_true, Bool.and_eq_true, decide_eq_true_eq] at h
  unfold pyToLower
  rw [if_neg]
  simp only [Bool.and_eq_true, decide_eq_true_eq, not_and]
  omega

theorem map_pyToLower_of_lower {ls : List Char} (h : ls.all isLowerHexDigit = true) :
    ls.map pyToLower = ls := by
  induction ls with
  | nil => rfl
  | cons c rest ih =>
    rw [List.all_cons, Bool.and_eq_true] at h
    rw [List.map_cons, pyToLower_of_lower h.1, ih h.2]

theorem isCanonicalColor_mk_cons (c : Char) (ds : List Char) :
    isCanonicalColor ⟨c :: ds⟩ = (c = '#' && ds.length = 6 && ds.all isLowerHexDigit) := rfl

theorem dupList_length (ls : List Char) :
    (ls.flatMap (fun c => [c, c])).length = 2 * ls.length := by
  induction ls with
  | nil => rfl
  | cons c rest ih => simp [List.flatMap_cons, ih]; omega

theorem dupList_all (ls : List Char) (p : Char → Bool) :
    (ls.flatMap (fun c => [c, c])).all p = ls.all p := by
  induction ls with
  | nil => rfl
  | cons c rest ih =>
    simp only [List.flatMap_cons, List.all_append, List.all_cons, List.all_nil, ih, List.all_eq_true]
    cases p c <;> simp

theorem isCanonicalColor_normalize {ls : List Char} (hall : ls.all isLowerHexDigit = true)
    (hlen : ls.length = 3 ∨ ls.length = 6) :
    isCanonicalColor (normalize_hex_color ⟨'#' :: ls⟩) = true := by
  have hmap : ls.map pyToLower = ls := map_pyToLower_of_lower hall
  unfold normalize_hex_color
  have hd : (String.mk ('#' :: ls)).data = '#' :: ls := rfl
  rw [hd, List.map_cons, hmap, show pyToLower '#' = '#' from rfl]
  rcases hlen with h3 | h6
  · rw [if_pos (by simp [h3])]
    have hdrop : ('#' :: ls).drop 1 = ls := rfl
    rw [hdrop, isCanonicalColor_mk_cons, dupList_length, dupList_all, h3, hall]
    simp
  · rw [if_neg (by simp [h6])]
    rw [isCanonicalColor_mk_cons, h6, hall]
    simp

theorem matchHexAt_shape :
    ∀ {cs raw rest : List Char}, matchHexAt cs = some (raw, rest) →
      ∃ ds, raw = '#' :: ds ∧ ds.all isHexDigitC = true ∧ (ds.length = 3 ∨ ds.length = 6) := by
  intro cs raw rest h
  rcases cs with _ | ⟨c0, cs1⟩
  · simp [matchHexAt] at h
  rcases cs1 with _ | ⟨a, cs2⟩
  · simp [matchHexAt] at h
  rcases cs2 with _ | ⟨b, cs3⟩
  · simp [matchHexAt] at h
  rcases cs3 with _ | ⟨c, rest3⟩
  · simp [matchHexAt] at h
  rw [matchHexAt] at h
  by_cases hx : c0 = '#' ∧ isHexDigitC a = true ∧ isHexDigitC b = true ∧ isHexDigitC c = true
  case neg => rw [if_neg hx] at h; simp at h
  rw [if_pos hx] at h
  obtain ⟨rfl, ha, hb', hc⟩ := hx
  by_cases hbd : boundaryR rest3 = true
  · rw [if_pos hbd] at h
    simp only [Option.some.injEq, Prod.mk.injEq] at h
    obtain ⟨rfl, rfl⟩ := h
    exact ⟨[a, b, c], rfl, by simp [ha, hb', hc], Or.inl rfl⟩
  · rw [if_neg hbd] at h
    rcases rest3 with _ | ⟨d, r4⟩
    · simp [matchHex6] at h
    rcases r4 with _ | ⟨e, r5⟩
    · simp [matchHex6] at h
    rcases r5 with _ | ⟨f, rest6⟩
    · simp [matchHex6] at h
    rw [matchHex6] at h
    split_ifs at h with h6
    obtain ⟨hd, he, hf, -⟩ := h6
    simp only [Option.some.injEq, Prod.mk.injEq] at h
    obtain ⟨rfl, rfl⟩ := h
    exact ⟨[a, b, c, d, e, f], rfl, by simp [ha, hb', hc, hd, he, hf], Or.inr rfl⟩

theorem hexKey_canonical {raw : List Char}
    (hsh : ∃ ds, raw = '#' :: ds ∧ ds.all isHexDigitC = true ∧ (ds.length = 3 ∨ ds.length = 6)) :
    isCanonicalColor (normalize_hex_color ⟨raw.map pyToLower⟩) = true := by
  obtain ⟨ds, rfl, hall, hlen⟩ := hsh
  rw [List.map_cons, show pyToLower '#' = '#' from rfl]
  refine isCanonicalColor_normalize ?_ (by simp [hlen])
  rw [List.all_map]
  rw [List.all_eq_true] at hall ⊢
  intro c hc
  exact isLowerHexDigit_pyToLower (hall c hc)

set_option maxRecDepth 10000 in
theorem pyFmt02xL_byte : ∀ n : Fin 256, (pyFmt02xL ((n : Nat) : Int)).length = 2 ∧
    ((pyFmt02xL ((n : Nat) : Int)).all isLowerHexDigit) = true := by decide

theorem pyFmt02xL_int {k : Int} (h0 : 0 ≤ k) (h255 : k ≤ 255) :
    (pyFmt02xL k).length = 2 ∧ ((pyFmt02xL k).all isLowerHexDigit) = true := by
  have hk : k = ((k.toNat : Nat) : Int) := (Int.toNat_of_nonneg h0).symm
  have hlt : k.toNat < 256 := by omega
  have := pyFmt02xL_byte ⟨k.toNat, hlt⟩
  rw [hk]
  exact this

theorem isCanonicalColor_rgbHex {r g b : Nat} (hr : r ≤ 255) (hg : g ≤ 255) (hb : b ≤ 255) :
    isCanonicalColor (rgbHex r g b) = true := by
  obtain ⟨hl1, ha1⟩ := pyFmt02xL_int (Int.ofNat_nonneg r) (by exact_mod_cast hr)
  obtain ⟨hl2, ha2⟩ := pyFmt02xL_int (Int.ofNat_nonneg g) (by exact_mod_cast hg)
  obtain ⟨hl3, ha3⟩ := pyFmt02xL_int (Int.ofNat_nonneg b) (by exact_mod_cast hb)
  rw [rgbHex, isCanonicalColor_mk_cons]
  simp [List.length_append, List.all_append, hl1, hl2, hl3, ha1, ha2, ha3]

theorem namedTable_canonical : NAMED_COLORS.all (fun e => isCanonicalColor e.2) = true := by
  decide

/-! ## Rational bounds for the colorsys conversions -/

theorem qmod1_nonneg (x : ℚ) : 0 ≤ qmod1 x := by
  rw [qmod1, sub_nonneg]
  exact Int.floor_le x

theorem qmod1_lt_one (x : ℚ) : qmod1 x < 1 := by
  have := Int.lt_floor_add_one x
  rw [qmod1]
  linarith

theorem hls_v_bounds {m1 m2 : ℚ} (hue : ℚ) (h0 : 0 ≤ m1) (h12 : m1 ≤ m2) (h21 : m2 ≤ 1) :
    0 ≤ hls_v m1 m2 hue ∧ hls_v m1 m2 hue ≤ 1 := by
  have hq0 := qmod1_nonneg hue
  have hq1 := qmod1_lt_one hue
  simp only [hls_v]
  split_ifs with h1 h2 h3
  · constructor
    · nlinarith
    · nlinarith
  · exact ⟨le_trans h0 h12, h21⟩
  · constructor
    · nlinarith
    · nlinarith
  · exact ⟨h0, le_trans h12 h21⟩

theorem hls_to_rgb_bounds (h l s : ℚ) (hl0 : 0 ≤ l) (hl1 : l ≤ 1) (hs0 : 0 ≤ s) (hs1 : s ≤ 1) :
    (0 ≤ (hls_to_rgb h l s).1 ∧ (hls_to_rgb h l s).1 ≤ 1) ∧
    (0 ≤ (hls_to_rgb h l s).2.1 ∧ (hls_to_rgb h l s).2.1 ≤ 1) ∧
    (0 ≤ (hls_to_rgb h l s).2.2 ∧ (hls_to_rgb h l s).2.2 ≤ 1) := by
  simp only [hls_to_rgb]
  split_ifs with hsz hl2
  · exact ⟨⟨hl0, hl1⟩, ⟨hl0, hl1⟩, ⟨hl0, hl1⟩⟩
  · have ha : 0 ≤ 2 * l - l * (1 + s) := by nlinarith
    have hb : 2 * l - l * (1 + s) ≤ l * (1 + s) := by nlinarith
    have hc : l * (1 + s) ≤ 1 := by nlinarith
    exact ⟨hls_v_bounds _ ha hb hc, hls_v_bounds _ ha hb hc, hls_v_bounds _ ha hb hc⟩
  · have ha : 0 ≤ 2 * l - (l + s - l * s) := by nlinarith
    have hb : 2 * l - (l + s - l * s) ≤ l + s - l * s := by nlinarith
    have hc : l + s - l * s ≤ 1 := by nlinarith
    exact ⟨hls_v_bounds _ ha hb hc, hls_v_bounds _ ha hb hc, hls_v_bounds _ ha hb hc⟩

theorem pyInt_nonneg_eq_floor {q : ℚ} (h : 0 ≤ q) : pyInt q = ⌊q⌋ := by
  rw [pyInt, if_pos h]

theorem pyInt_bounds (q : ℚ) (M : Int) (h0 : 0 ≤ q) (h : q ≤ (M : ℚ)) :
    0 ≤ pyInt q ∧ pyInt q ≤ M := by
  rw [pyInt_nonneg_eq_floor h0]
  refine ⟨Int.floor_nonneg.mpr h0, ?_⟩
  have hq : (⌊q⌋ : ℚ) ≤ (M : ℚ) := le_trans (Int.floor_le q) h
  exact_mod_cast hq

theorem isCanonicalColor_hslHex {h s l : Nat} (hs : s ≤ 100) (hl : l ≤ 100) :
    isCanonicalColor (hslHex h s l) = true := by
  have hs0 : (0 : ℚ) ≤ (s : ℚ) / 100 := by positivity
  have hs1 : (s : ℚ) / 100 ≤ 1 := by
    rw [div_le_one (by norm_num)]
    exact_mod_cast hs
  have hl0 : (0 : ℚ) ≤ (l : ℚ) / 100 := by positivity
  have hl1 : (l : ℚ) / 100 ≤ 1 := by
    rw [div_le_one (by norm_num)]
    exact_mod_cast hl
  obtain ⟨⟨h1, h2⟩, ⟨h3, h4⟩, ⟨h5, h6⟩⟩ :=
    hls_to_rgb_bounds ((h : ℚ) / 360) ((l : ℚ) / 100) ((s : ℚ) / 100) hl0 hl1 hs0 hs1
  obtain ⟨ha1, hb1⟩ :=
    pyInt_bounds ((hls_to_rgb ((h : ℚ) / 360) ((l : ℚ) / 100) ((s : ℚ) / 100)).1 * 255)
      255 (mul_nonneg h1 (by norm_num)) (by nlinarith)
  obtain ⟨ha2, hb2⟩ :=
    pyInt_bounds ((hls_to_rgb ((h : ℚ) / 360) ((l : ℚ) / 100) ((s : ℚ) / 100)).2.1 * 255)
      255 (mul_nonneg h3 (by norm_num)) (by nlinarith)
  obtain ⟨ha3, hb3⟩ :=
    pyInt_bounds ((hls_to_rgb ((h : ℚ) / 360) ((l : ℚ) / 100) ((s : ℚ) / 100)).2.2 * 255)
      255 (mul_nonneg h5 (by norm_num)) (by nlinarith)
  obtain ⟨hl1', hall1⟩ := pyFmt02xL_int ha1 hb1
  obtain ⟨hl2', hall2⟩ := pyFmt02xL_int ha2 hb2
  obtain ⟨hl3', hall3⟩ := pyFmt02xL_int ha3 hb3
  rw [hslHex, isCanonicalColor_mk_cons]
  simp [List.length_append, List.all_append, hl1', hl2', hl3', hall1, hall2, hall3]

theorem lookupA_eq_none {α : Type} {l : List (String × α)} {k : String} (h : k ∉ keysOf l) :
    lookupA l k = none := by
  cases hc : lookupA l k with
  | none => rfl
  | some v => exact absurd ((lookupA_isSome_iff l k).mp (by rw [hc]; rfl)) h

theorem keysOf_extract_nodup {content : String} {ext : List (String × List String)}
    (h : extract_colors_from_content content = Except.ok ext) : (keysOf ext).Nodup := by
  simp only [extract_colors_from_content] at h
  split_ifs at h with h1 h2
  obtain rfl := Except.ok.inj h
  rw [keysOf_foldl_addMatch, keysOf_foldl_addMatch, keysOf_foldl_addMatch,
    keysOf_foldl_addMatch]
  exact keysAcc_nodup _ _ (keysAcc_nodup _ _ (keysAcc_nodup _ _ (keysAcc_nodup _ _ (by simp))))

theorem keysOf_analyze_nodup (fs : String → Option String) (p : String) :
    (keysOf (analyze_file fs p).1).Nodup := by
  rw [analyze_file]
  cases fs p with
  | none => simp
  | some content =>
    show (keysOf (analyze_result (extract_colors_from_content content) p).1).Nodup
    cases hce : extract_colors_from_content content with
    | error msg => simp [analyze_result]
    | ok ext =>
      simp only [analyze_result]
      exact keysOf_extract_nodup hce

/-! ## Aggregation lemmas -/

theorem lookupA_updateRecord (data : List (String × ColorRecord)) (nv file_str : String)
    (vars : List String) (k : String) :
    lookupA (updateRecord data nv file_str vars) k =
      if k = nv then
        some (match lookupA data nv with
              | none => freshRecord nv file_str vars
              | some r => bumpRecord r file_str vars)
      else lookupA data k := by
  induction data with
  | nil =>
    by_cases h : k = nv
    · subst h; simp [updateRecord, lookupA_cons]
    · simp [updateRecord, lookupA_cons, h]
  | cons e rest ih =>
    obtain ⟨k0, rec0⟩ := e
    by_cases h0 : k0 = nv
    · subst h0
      rw [updateRecord, if_pos rfl]
      by_cases hk : k = k0
      · subst hk; simp [lookupA_cons]
      · simp [lookupA_cons, hk]
    · rw [updateRecord, if_neg h0]
      have h0' : ¬nv = k0 := fun hh => h0 hh.symm
      by_cases hk : k = k0
      · have hkn : ¬k = nv := by rw [hk]; exact h0
        simp [lookupA_cons, hk, hkn, h0]
      · simp [lookupA_cons, hk, ih, h0']

theorem lookupA_addFileColors (p : String) :
    ∀ (ext : List (String × List String)) (data : List (String × ColorRecord)),
      (keysOf ext).Nodup → ∀ k,
      lookupA (addFileColors data p ext) k =
        match lookupA ext k with
        | none => lookupA data k
        | some vars =>
          match lookupA data k with
          | none => some (freshRecord k p vars)
          | some r => some (bumpRecord r p vars) := by
  intro ext
  induction ext with
  | nil => intro data h k; simp [addFileColors]
  | cons e rest ih =>
    intro data h k
    obtain ⟨nv, vars⟩ := e
    have hstep : addFileColors data p ((nv, vars) :: rest) =
        addFileColors (updateRecord data nv p vars) p rest := rfl
    have hnd : (keysOf rest).Nodup := (List.nodup_cons.mp (by simpa using h)).2
    have hnm : nv ∉ keysOf rest := (List.nodup_cons.mp (by simpa using h)).1
    rw [hstep, ih _ hnd]
    by_cases hk : k = nv
    · subst hk
      rw [lookupA_eq_none hnm, lookupA_updateRecord, if_pos rfl]
      cases lookupA data k <;> simp [lookupA_cons]
    · rw [lookupA_updateRecord, if_neg hk]
      simp [lookupA_cons, hk]

theorem containCount_cons (fs : String → Option String) (p : String) (ps : List String)
    (k : String) :
    containCount fs (p :: ps) k =
      containCount fs ps k + (if (lookupA (analyze_file fs p).1 k).isSome then 1 else 0) := by
  simp only [containCount, List.filter_cons]
  split_ifs <;> simp

theorem aggregate_preserve (fs : String → Option String) :
    ∀ (files : List String) (data : List (String × ColorRecord)) (k : String) (r : ColorRecord),
      lookupA data k = some r →
      ∃ r', lookupA (files.foldl (fun d p => addFileColors d p (analyze_file fs p).1) data) k
          = some r' ∧
        r'.name = r.name ∧ r'.color_format = r.color_format ∧ r'.category = r.category ∧
        r'.count = r.count + containCount fs files k ∧
        r'.unique = (r.unique && decide (containCount fs files k = 0)) := by
  intro files
  induction files with
  | nil =>
    intro data k r h
    exact ⟨r, h, rfl, rfl, rfl, by simp [containCount], by simp [containCount]⟩
  | cons p ps ih =>
    intro data k r h
    rw [List.foldl_cons]
    have hstep := lookupA_addFileColors p (analyze_file fs p).1 data (keysOf_analyze_nodup fs p) k
    cases hc : lookupA (analyze_file fs p).1 k with
    | none =>
      rw [hc] at hstep
      obtain ⟨r', h1, h2, h3, h4, h5, h6⟩ := ih _ k r (by rw [hstep, h])
      have hcc : containCount fs (p :: ps) k = containCount fs ps k := by
        rw [containCount_cons, hc]
        simp
      refine ⟨r', h1, h2, h3, h4, ?_, ?_⟩
      · rw [h5, hcc]
      · rw [h6, hcc]
    | some vars =>
      rw [hc, h] at hstep
      obtain ⟨r', h1, h2, h3, h4, h5, h6⟩ := ih _ k (bumpRecord r p vars) hstep
      have hcc : containCount fs (p :: ps) k = containCount fs ps k + 1 := by
        rw [containCount_cons, hc]
        simp
      refine ⟨r', h1, ?_, ?_, ?_, ?_, ?_⟩
      · rw [h2]; rfl
      · rw [h3]; rfl
      · rw [h4]; rfl
      · rw [h5, hcc]
        show (bumpRecord r p vars).count + containCount fs ps k = r.count + _
        simp only [bumpRecord]
        omega
      · rw [h6, hcc]
        show ((bumpRecord r p vars).unique && _) = _
        simp [bumpRecord]

theorem aggregate_create (fs : String → Option String) :
    ∀ (files : List String) (data : List (String × ColorRecord)) (k : String) (r : ColorRecord),
      lookupA data k = none →
      lookupA (files.foldl (fun d p => addFileColors d p (analyze_file fs p).1) data) k
        = some r →
      r.name = k ∧ r.category = determine_color_category k ∧
      (∃ vars, firstVars fs files k = some vars ∧
        r.color_format = format_of_color (vars.headD "")) ∧
      r.count = containCount fs files k ∧
      r.unique = decide (containCount fs files k = 1) := by
  intro files
  induction files with
  | nil =>
    intro data k r h0 h1
    rw [List.foldl_nil, h0] at h1
    exact absurd h1 (by simp)
  | cons p ps ih =>
    intro data k r h0 h1
    rw [List.foldl_cons] at h1
    have hstep := lookupA_addFileColors p (analyze_file fs p).1 data (keysOf_analyze_nodup fs p) k
    cases hc : lookupA (analyze_file fs p).1 k with
    | none =>
      rw [hc] at hstep
      have hcc : containCount fs (p :: ps) k = containCount fs ps k := by
        rw [containCount_cons, hc]
        simp
      obtain ⟨ha, hb, hcx, hd, he⟩ := ih _ k r (by rw [hstep]; exact h0) h1
      refine ⟨ha, hb, ?_, ?_, ?_⟩
      · obtain ⟨vars, hv1, hv2⟩ := hcx
        refine ⟨vars, ?_, hv2⟩
        rw [firstVars, hc]
        exact hv1
      · rw [hd, hcc]
      · rw [he, hcc]
    | some vars =>
      rw [hc, h0] at hstep
      have hcc : containCount fs (p :: ps) k = containCount fs ps k + 1 := by
        rw [containCount_cons, hc]
        simp
      obtain ⟨r', h1', h2, h3, h4, h5, h6⟩ := aggregate_preserve fs ps _ k _ hstep
      obtain rfl : r' = r := Option.some.inj (h1'.symm.trans h1)
      refine ⟨?_, ?_, ?_, ?_, ?_⟩
      · rw [h2]; rfl
      · rw [h4]; rfl
      · refine ⟨vars, ?_, ?_⟩
        · rw [firstVars, hc]
        · rw [h3]; rfl
      · rw [h5, hcc]
        show (freshRecord k p vars).count + containCount fs ps k = _
        simp only [freshRecord]
        omega
      · rw [h6, hcc]
        show ((freshRecord k p vars).unique && _) = _
        simp only [freshRecord, Bool.true_and]
        exact decide_eq_decide.mpr (by omega)

theorem extract_keys_canonical {content : String} {ext : List (String × List String)}
    (hok : extract_colors_from_content content = Except.ok ext)
    (hin : ExtractInRange content) :
    ∀ k ∈ keysOf ext, isCanonicalColor k = true := by
  obtain ⟨hrgb, hhsl⟩ := hin
  intro k hk
  simp only [extract_colors_from_content] at hok
  split_ifs at hok with h1 h2
  obtain rfl := Except.ok.inj hok
  rw [keysOf_foldl_addMatch, keysOf_foldl_addMatch, keysOf_foldl_addMatch,
    keysOf_foldl_addMatch] at hk
  rcases (mem_keysAcc k _ _).mp hk with hk | hnamed
  rotate_left
  · -- named phase
    obtain ⟨name, hmem, rfl⟩ := List.mem_map.mp hnamed
    obtain ⟨v, hv⟩ := scanNamedAux_mem _ _ _ name hmem
    have hks : name ∈ keysOf NAMED_COLORS := List.mem_map.mpr ⟨(name, v), hv, rfl⟩
    cases hlk : lookupA NAMED_COLORS name with
    | none =>
      exact absurd ((lookupA_isSome_iff _ _).mpr hks) (by rw [hlk]; simp)
    | some v' =>
      have hv' : (name, v') ∈ NAMED_COLORS := lookupA_mem hlk
      have := (List.all_eq_true.mp namedTable_canonical) (name, v') hv'
      simpa [hlk] using this
  rcases (mem_keysAcc k _ _).mp hk with hk | hhslm
  rotate_left
  · obtain ⟨m, hmem, rfl⟩ := List.mem_map.mp hhslm
    obtain ⟨hs, hl⟩ := hhsl m hmem
    exact isCanonicalColor_hslHex hs hl
  rcases (mem_keysAcc k _ _).mp hk with hk | hrgbm
  rotate_left
  · obtain ⟨m, hmem, rfl⟩ := List.mem_map.mp hrgbm
    obtain ⟨h1, h2, h3⟩ := hrgb m hmem
    exact isCanonicalColor_rgbHex h1 h2 h3
  rcases (mem_keysAcc k _ _).mp hk with hk | hhexm
  · simp at hk
  · obtain ⟨raw, hmem, rfl⟩ := List.mem_map.mp hhexm
    exact hexKey_canonical
      (scan_forall matchHexAt _ (fun _ _ _ h => matchHexAt_shape h) content.data raw hmem)

/-- The canonical key of every hsl match is a key of a successful
extraction result. -/
theorem hsl_key_present {content : String} {ext : List (String × List String)} {m : HSLMatch}
    (hok : extract_colors_from_content content = Except.ok ext)
    (hm : m ∈ scan matchHSLAt content.data) :
    (lookupA ext (hslHex m.h m.s m.l)).isSome = true := by
  simp only [extract_colors_from_content] at hok
  split_ifs at hok with h1 h2
  obtain rfl := Except.ok.inj hok
  rw [lookupA_isSome_iff]
  rw [keysOf_foldl_addMatch, keysOf_foldl_addMatch, keysOf_foldl_addMatch,
    keysOf_foldl_addMatch]
  apply (mem_keysAcc _ _ _).mpr
  left
  apply (mem_keysAcc _ _ _).mpr
  right
  exact List.mem_map_of_mem _ hm

/-- Any content with at least one rgba or hsla match makes the extraction
raise: the alpha alternation's nested `(\.0)` group gives these patterns
five capturing groups, and the four-name unpacking of `match.groups()`
fails with `ValueError: too many values to unpack (expected 4)`. -/
theorem extract_raises {content : String}
    (h : ¬(scan matchRGBAAt content.data = [] ∧ scan matchHSLAAt content.data = [])) :
    extract_colors_from_content content
      = Except.error "too many values to unpack (expected 4)" := by
  simp only [extract_colors_from_content]
  split_ifs with h1 h2
  · exact absurd ⟨h1, h2⟩ h
  · rfl
  · rfl

/-! ## Watch-loop lemmas -/

theorem getTime_insertTime_self (st : List (String × Nat)) (f : String) (m : Nat) :
    getTime (insertTime st f m) f = m := by
  induction st with
  | nil => simp [insertTime, getTime, lookupA_cons]
  | cons e rest ih =>
    obtain ⟨k, v⟩ := e
    rw [insertTime]
    by_cases h : f = k
    · rw [if_pos h]
      simp [getTime, lookupA_cons, h]
    · rw [if_neg h]
      simp only [getTime, lookupA_cons, if_neg h] at ih ⊢
      exact ih

theorem getTime_insertTime_other (st : List (String × Nat)) (f f' : String) (m : Nat)
    (h : ¬f' = f) : getTime (insertTime st f m) f' = getTime st f' := by
  induction st with
  | nil => simp [insertTime, getTime, lookupA_cons, h]
  | cons e rest ih =>
    obtain ⟨k, v⟩ := e
    rw [insertTime]
    by_cases hk : f = k
    · rw [if_pos hk]
      have hfk : ¬f' = k := by rw [← hk]; exact h
      simp only [getTime, lookupA_cons, if_neg hfk]
    · rw [if_neg hk]
      by_cases hf : f' = k
      · simp only [getTime, lookupA_cons, if_pos hf]
      · simp only [getTime, lookupA_cons, if_neg hf] at ih ⊢
        exact ih

theorem getTime_init_fold (mt0 : String → Option Nat) :
    ∀ (files : List String) (st : List (String × Nat)) (f : String),
      getTime (files.foldl (fun st f' => insertTime st f' ((mt0 f').getD 0)) st) f =
        if f ∈ files then (mt0 f).getD 0 else getTime st f := by
  intro files
  induction files with
  | nil => intro st f; simp
  | cons p ps ih =>
    intro st f
    rw [List.foldl_cons, ih]
    by_cases hf : f ∈ ps
    · simp [hf]
    · rcases eq_or_ne f p with rfl | hne
      · simp [hf, getTime_insertTime_self]
      · have : ¬f ∈ p :: ps := by simp [hf, hne]
        simp [hf, this, getTime_insertTime_other st p f _ hne]

theorem getTime_watch_init (mt0 : String → Option Nat) (files : List String) (f : String)
    (h : f ∈ files) : getTime (watch_init mt0 files) f = (mt0 f).getD 0 := by
  rw [watch_init, getTime_init_fold, if_pos h]

theorem watch_step_no_change (poll : String → Option Nat) (st : List (String × Nat)) :
    ∀ files : List String,
      (∀ f ∈ files, ∀ m, poll f = some m → m ≤ getTime st f) →
      watch_step files poll st = (st, false) := by
  have aux : ∀ (files : List String),
      (∀ f ∈ files, ∀ m, poll f = some m → m ≤ getTime st f) →
      files.foldl
        (fun acc f =>
          match poll f with
          | none => acc
          | some m => if getTime acc.1 f < m then (insertTime acc.1 f m, true) else acc)
        (st, false) = (st, false) := by
    intro files
    induction files with
    | nil => intro h; rfl
    | cons p ps ih =>
      intro h
      rw [List.foldl_cons]
      cases hp : poll p with
      | none =>
        simp only [hp]
        exact ih (fun f hf => h f (List.mem_cons_of_mem _ hf))
      | some m =>
        have h1 := h p (List.mem_cons_self _ _) m hp
        have h2 : ¬getTime st p < m := by omega
        simp only [hp, h2, if_false]
        exact ih (fun f hf => h f (List.mem_cons_of_mem _ hf))
  intro files h
  rw [watch_step]
  exact aux files h

theorem watch_step_true_exists (poll : String → Option Nat) (st : List (String × Nat)) :
    ∀ (files : List String) (st' : List (String × Nat)),
      watch_step files poll st = (st', true) →
      ∃ f ∈ files, ∃ m, poll f = some m ∧ getTime st f < m := by
  have aux : ∀ (files : List String) (acc : List (String × Nat) × Bool),
      (∀ f, getTime st f ≤ getTime acc.1 f) →
      (files.foldl
        (fun acc f =>
          match poll f with
          | none => acc
          | some m => if getTime acc.1 f < m then (insertTime acc.1 f m, true) else acc)
        acc).2 = true →
      acc.2 = true ∨ ∃ f ∈ files, ∃ m, poll f = some m ∧ getTime st f < m := by
    intro files
    induction files with
    | nil => intro acc hmono h; exact Or.inl h
    | cons p ps ih =>
      intro acc hmono h
      rw [List.foldl_cons] at h
      cases hp : poll p with
      | none =>
        simp only [hp] at h
        rcases ih acc hmono h with h' | ⟨f, hf, m, hm, hlt⟩
        · exact Or.inl h'
        · exact Or.inr ⟨f, List.mem_cons_of_mem _ hf, m, hm, hlt⟩
      | some m =>
        by_cases hlt : getTime acc.1 p < m
        · exact Or.inr ⟨p, List.mem_cons_self _ _, m, hp, lt_of_le_of_lt (hmono p) hlt⟩
        · simp only [hp, hlt, if_false] at h
          rcases ih acc hmono h with h' | ⟨f, hf, m', hm', hlt'⟩
          · exact Or.inl h'
          · exact Or.inr ⟨f, List.mem_cons_of_mem _ hf, m', hm', hlt'⟩
  intro files st' h
  have h2 : (watch_step files poll st).2 = true := by rw [h]
  rw [watch_step] at h2
  rcases aux files (st, false) (fun f => le_refl _) h2 with h' | hex
  · simp at h'
  · exact hex

theorem watch_emits_no_change (files : List String) (mt0 : String → Option Nat) :
    ∀ (polls : List (String → Option Nat)) (outs : List Bool),
      (∀ b ∈ outs, b = false) →
      (∀ poll ∈ polls, ∀ f ∈ files, ∀ m, poll f = some m →
        m ≤ getTime (watch_init mt0 files) f) →
      ∀ b ∈ (polls.foldl
          (fun acc poll =>
            let r := watch_step files poll acc.1
            (r.1, acc.2 ++ [r.2]))
          (watch_init mt0 files, outs)).2, b = false := by
  intro polls
  induction polls with
  | nil => intro outs houts hp b hb; exact houts b hb
  | cons poll ps ih =>
    intro outs houts hp b hb
    rw [List.foldl_cons] at hb
    have hstep : watch_step files poll (watch_init mt0 files) = (watch_init mt0 files, false) :=
      watch_step_no_change poll _ files (fun f hf m hm => hp poll (List.mem_cons_self _ _) f hf m hm)
    simp only [hstep] at hb
    exact ih (outs ++ [false])
      (by
        intro b' hb'
        rcases List.mem_append.mp hb' with h' | h'
        · exact houts b' h'
        · simpa using h')
      (fun q hq f hf m hm => hp q (List.mem_cons_of_mem _ hq) f hf m hm) b hb

/-! ## Error-handling lemmas (read failure) -/

theorem addFileColors_nil (data : List (String × ColorRecord)) (p : String) :
    addFileColors data p [] = data := rfl

theorem aggregate_skip {fs : String → Option String} {p : String} (hp : fs p = none)
    (l1 l2 : List String) :
    aggregate fs (l1 ++ p :: l2) = aggregate fs (l1 ++ l2) := by
  rw [aggregate, aggregate, List.foldl_append, List.foldl_append, List.foldl_cons]
  congr 1
  rw [analyze_file, hp]
  rfl

theorem foldl_append_mem_mono {α β : Type} (g : β → List α) :
    ∀ (l : List β) (a0 : List α) (x : α), x ∈ a0 →
      x ∈ l.foldl (fun a p => a ++ g p) a0 := by
  intro l
  induction l with
  | nil => intro a0 x h; exact h
  | cons p ps ih =>
    intro a0 x h
    rw [List.foldl_cons]
    exact ih _ x (List.mem_append.mpr (Or.inl h))

theorem stderr_mem {fs : String → Option String} {p : String} (hp : fs p = none)
    (l1 l2 : List String) :
    ("Error analyzing " ++ p) ∈ process_files_stderr fs (l1 ++ p :: l2) := by
  rw [process_files_stderr, List.foldl_append, List.foldl_cons]
  apply foldl_append_mem_mono
  rw [analyze_file, hp]
  simp

/-! ## Hex parsing bounds (for categorization of valid hex colors) -/

theorem mem_updateRecord_ok (P : String → Prop) :
    ∀ (data : List (String × ColorRecord)) (nv file_str : String) (vars : List String),
      (∀ e ∈ data, P e.1 ∧ e.2.name = e.1) → P nv →
      ∀ e ∈ updateRecord data nv file_str vars, P e.1 ∧ e.2.name = e.1 := by
  intro data
  induction data with
  | nil =>
    intro nv file_str vars hdata hnv e he
    simp only [updateRecord, List.mem_singleton] at he
    subst he
    exact ⟨hnv, rfl⟩
  | cons e0 rest ih =>
    intro nv file_str vars hdata hnv e he
    obtain ⟨k0, rec0⟩ := e0
    rw [updateRecord] at he
    split_ifs at he with hk
    · rcases List.mem_cons.mp he with rfl | he
      · have h0 := hdata (k0, rec0) (List.mem_cons_self _ _)
        exact ⟨h0.1, h0.2⟩
      · exact hdata e (List.mem_cons_of_mem _ he)
    · rcases List.mem_cons.mp he with rfl | he
      · exact hdata (k0, rec0) (List.mem_cons_self _ _)
      · exact ih nv file_str vars (fun x hx => hdata x (List.mem_cons_of_mem _ hx)) hnv e he

theorem addFileColors_ok (P : String → Prop) (p : String) :
    ∀ (ext : List (String × List String)) (data : List (String × ColorRecord)),
      (∀ e ∈ data, P e.1 ∧ e.2.name = e.1) → (∀ x ∈ ext, P x.1) →
      ∀ e ∈ addFileColors data p ext, P e.1 ∧ e.2.name = e.1 := by
  intro ext
  induction ext with
  | nil => intro data hdata hext e he; exact hdata e he
  | cons x rest ih =>
    intro data hdata hext e he
    obtain ⟨nv, vars⟩ := x
    have hstep : addFileColors data p ((nv, vars) :: rest) =
        addFileColors (updateRecord data nv p vars) p rest := rfl
    rw [hstep] at he
    exact ih _ (mem_updateRecord_ok P data nv p vars hdata (hext (nv, vars)
      (List.mem_cons_self _ _))) (fun y hy => hext y (List.mem_cons_of_mem _ hy)) e he

theorem aggregate_records_ok (P : String → Prop) (fs : String → Option String)
    (hP : ∀ p content ext, fs p = some content →
      extract_colors_from_content content = Except.ok ext →
      ∀ k ∈ keysOf ext, P k) :
    ∀ (files : List String) (data : List (String × ColorRecord)),
      (∀ e ∈ data, P e.1 ∧ e.2.name = e.1) →
      ∀ e ∈ files.foldl (fun d p => addFileColors d p (analyze_file fs p).1) data,
        P e.1 ∧ e.2.name = e.1 := by
  intro files
  induction files with
  | nil => intro data hdata e he; exact hdata e he
  | cons p ps ih =>
    intro data hdata e he
    rw [List.foldl_cons] at he
    refine ih _ ?_ e he
    apply addFileColors_ok P p _ data hdata
    intro x hx
    rw [analyze_file] at hx
    cases hc : fs p with
    | none => rw [hc] at hx; simp at hx
    | some content =>
      rw [hc] at hx
      have hx' : x ∈ (analyze_result (extract_colors_from_content content) p).1 := hx
      cases hce : extract_colors_from_content content with
      | error msg => rw [hce] at hx'; simp [analyze_result] at hx'
      | ok ext =>
        rw [hce] at hx'
        simp only [analyze_result] at hx'
        exact hP p content ext hc hce x.1 (List.mem_map_of_mem _ hx')

/-! ## The hsl canonicalization as floor of the exact conversion -/

theorem hslHex_eq_floor {h s l : Nat} (hs : s ≤ 100) (hl : l ≤ 100) :
    ∃ rq gq bq : ℚ, hls_to_rgb ((h : ℚ) / 360) ((l : ℚ) / 100) ((s : ℚ) / 100) = (rq, gq, bq) ∧
      hslHex h s l =
        ⟨'#' :: (pyFmt02xL ⌊rq * 255⌋ ++ pyFmt02xL ⌊gq * 255⌋ ++ pyFmt02xL ⌊bq * 255⌋)⟩ := by
  have hs0 : (0 : ℚ) ≤ (s : ℚ) / 100 := by positivity
  have hs1 : (s : ℚ) / 100 ≤ 1 := by
    rw [div_le_one (by norm_num)]
    exact_mod_cast hs
  have hl0 : (0 : ℚ) ≤ (l : ℚ) / 100 := by positivity
  have hl1 : (l : ℚ) / 100 ≤ 1 := by
    rw [div_le_one (by norm_num)]
    exact_mod_cast hl
  obtain ⟨⟨h1, h2⟩, ⟨h3, h4⟩, ⟨h5, h6⟩⟩ :=
    hls_to_rgb_bounds ((h : ℚ) / 360) ((l : ℚ) / 100) ((s : ℚ) / 100) hl0 hl1 hs0 hs1
  refine ⟨(hls_to_rgb ((h : ℚ) / 360) ((l : ℚ) / 100) ((s : ℚ) / 100)).1,
    (hls_to_rgb ((h : ℚ) / 360) ((l : ℚ) / 100) ((s : ℚ) / 100)).2.1,
    (hls_to_rgb ((h : ℚ) / 360) ((l : ℚ) / 100) ((s : ℚ) / 100)).2.2, rfl, ?_⟩
  rw [hslHex]
  rw [pyInt_nonneg_eq_floor (mul_nonneg h1 (by norm_num)),
    pyInt_nonneg_eq_floor (mul_nonneg h3 (by norm_num)),
    pyInt_nonneg_eq_floor (mul_nonneg h5 (by norm_num))]

/-! ## Categorization bridging lemmas -/

set_option maxRecDepth 100000 in
/-- Claim C1, counterexample: the input `rgb(999,0,0)` is matched (digits
unconstrained by range) and `%02x`-formatted into the 8-character key
`#3e70000`, which both appears as a key of the extraction map and, after
processing a file with that content, as a key and record `name` of the
aggregation map — so the 7-character CanonicalColor invariant fails for
out-of-range components. -/
theorem C1_counterexample :
    extract_colors_from_content "rgb(999,0,0)"
      = Except.ok [("#3e70000", ["rgb(999,0,0)"])] ∧
    isCanonicalColor "#3e70000" = false ∧ ("#3e70000" : String).length = 8 ∧
    (lookupA (aggregate (fun p => if p = "f.css" then some "rgb(999,0,0)" else none)
        ["f.css"]) "#3e70000").map (fun r => r.name) = some "#3e70000" := by
  refine ⟨by decide, by decide, by decide, by decide⟩

/-- Claim C1, amended: whenever every rgb match of the content has its
components in 0–255 and every hsl match has its two percentages in 0–100,
every key of a successful extraction is a canonical color (7 characters,
`#` + 6 lowercase hex digits); and under the same condition on all file
contents, every key of the aggregation map is canonical and equals the
`name` of its record.  The rgba/hsla matches need no side condition:
they never contribute a key — they make the extraction raise, and such a
file contributes nothing at all. -/
theorem C1_canonical_keys :
    (∀ (content : String) (ext : List (String × List String)),
      extract_colors_from_content content = Except.ok ext → ExtractInRange content →
      ∀ k ∈ keysOf ext, isCanonicalColor k = true) ∧
    (∀ (fs : String → Option String) (files : List String),
      (∀ p content, fs p = some content → ExtractInRange content) →
      ∀ e ∈ aggregate fs files, isCanonicalColor e.1 = true ∧ e.2.name = e.1) := by
  constructor
  · intro content ext hok hin
    exact extract_keys_canonical hok hin
  · intro fs files hfs e he
    exact aggregate_records_ok (fun k => isCanonicalColor k = true) fs
      (fun p content ext hc hok k hk => extract_keys_canonical hok (hfs p content hc) k hk)
      files [] (by simp) e he

set_option maxRecDepth 100000 in
/-- Claim C1, witness: the amended theorem applied to a concrete content
with one 3-digit hex literal. -/
theorem C1_canonical_keys_witness : isCanonicalColor "#aabbcc" = true :=
  C1_canonical_keys.1 "color: #AbC" [("#aabbcc", ["#abc"])] (by decide) (by decide)
    "#aabbcc" (by decide)

set_option maxRecDepth 100000 in
/-- Claim C2, counterexample: for `hsl(7, 100%, 50%)` the code truncates
`int(r*255)` and produces `#ff1d00`, while the spec's rounding-to-nearest
policy would produce `#ff1e00`; and an hsla literal is never canonicalized
at all — its pattern has five capturing groups, the four-name unpacking
raises `ValueError`, and the extraction is discarded. -/
theorem C2_counterexample :
    extract_colors_from_content "hsl(7, 100%, 50%)"
      = Except.ok [("#ff1d00", ["hsl(7, 100%, 50%)"])] ∧
    hslHex 7 100 50 = "#ff1d00" ∧
    spec_hslHex_rounded 7 100 50 = "#ff1e00" ∧
    ("#ff1d00" : String) ≠ "#ff1e00" ∧
    extract_colors_from_content "hsla(7, 100%, 50%, 0.5)"
      = Except.error "too many values to unpack (expected 4)" := by
  refine ⟨by decide, by decide, by decide, by decide, by decide⟩

/-- Claim C2, amended: for every matched hsl literal with in-range
percentages in a content whose extraction succeeds, the canonical hex key
is computed by converting HSL to RGB with the standard inverse conversion
(`colorsys.hls_to_rgb`) and *truncating* (floor, for these nonnegative
channels) each RGB channel after scaling by 255 — not rounding to
nearest — and that key is present in the extraction result.  An hsla
match, by contrast, never yields a key: any content containing one makes
the extraction raise. -/
theorem C2_hsl_truncation :
    (∀ (content : String) (ext : List (String × List String)) (m : HSLMatch),
      extract_colors_from_content content = Except.ok ext →
      m ∈ scan matchHSLAt content.data → m.s ≤ 100 → m.l ≤ 100 →
      (lookupA ext (hslHex m.h m.s m.l)).isSome = true ∧
      ∃ rq gq bq : ℚ,
        hls_to_rgb ((m.h : ℚ) / 360) ((m.l : ℚ) / 100) ((m.s : ℚ) / 100) = (rq, gq, bq) ∧
        hslHex m.h m.s m.l =
          ⟨'#' :: (pyFmt02xL ⌊rq * 255⌋ ++ pyFmt02xL ⌊gq * 255⌋ ++ pyFmt02xL ⌊bq * 255⌋)⟩) ∧
    (∀ (content : String) (m : HSLAMatch), m ∈ scan matchHSLAAt content.data →
      extract_colors_from_content content
        = Except.error "too many values to unpack (expected 4)") :=
  ⟨fun _ _ _ hok hm hs hl => ⟨hsl_key_present hok hm, hslHex_eq_floor hs hl⟩,
   fun _ _ hm => extract_raises (fun hand => List.ne_nil_of_mem hm hand.2)⟩

set_option maxRecDepth 100000 in
/-- Claim C2, witness: the amended theorem applied to the concrete match of
`hsl(7, 100%, 50%)`. -/
theorem C2_hsl_truncation_witness :
    (lookupA [("#ff1d00", ["hsl(7, 100%, 50%)"])] (hslHex 7 100 50)).isSome = true :=
  (C2_hsl_truncation.1 "hsl(7, 100%, 50%)" [("#ff1d00", ["hsl(7, 100%, 50%)"])]
    { raw := "hsl(7, 100%, 50%)".data, h := 7, s := 100, l := 50 }
    (by decide) (by decide) (by decide) (by decide)).1

set_option maxRecDepth 100000 in
/-- Claim C3, counterexample, both directions of failure: a sequence
that processes the same path twice (reachable from the CLI via
`-i FILE -d DIR` when FILE lies in DIR) gives `count = 2` although only
one distinct file contains the color; and a file whose only occurrence of
white is the literal `rgba(255, 255, 255, 1.0)` — matched, with groups
(255, 255, 255) — is never counted at all: the extraction raises, so the
aggregation map stays empty. -/
theorem C3_counterexample :
    (lookupA (aggregate (fun p => if p = "a.css" then some "color: #fff" else none)
        ["a.css", "a.css"]) "#ffffff").map (fun r => r.count) = some 2 ∧
    ((["a.css", "a.css"].filter (fun p => (lookupA (analyze_file
        (fun q => if q = "a.css" then some "color: #fff" else none) p).1
          "#ffffff").isSome)).dedup).length = 1 ∧
    (scan matchRGBAAt ("rgba(255, 255, 255, 1.0)").data).map (fun m => (m.r, m.g, m.b))
      = [(255, 255, 255)] ∧
    aggregate (fun p => if p = "b.css" then some "rgba(255, 255, 255, 1.0)" else none)
      ["b.css"] = [] := by
  refine ⟨by decide, by decide, by decide, by decide⟩

/-- Claim C3, amended: unconditionally, `count` equals the number of
entries of the processed (file-path, extraction-result) sequence whose
result contains the color; when the file paths of the sequence are
pairwise distinct this is exactly the number of distinct files whose
extraction result contains the color.  That can be fewer than the files
containing an occurrence of the color: a file whose occurrences are
rgba/hsla literals crashes extraction and contributes nothing. -/
theorem C3_count_files :
    ∀ (fs : String → Option String) (files : List String) (k : String) (r : ColorRecord),
      lookupA (aggregate fs files) k = some r →
      r.count = containCount fs files k ∧
      (files.Nodup →
        containCount fs files k =
          ((files.filter (fun p =>
            (lookupA (analyze_file fs p).1 k).isSome)).dedup).length) := by
  intro fs files k r hlk
  obtain ⟨-, -, -, hcount, -⟩ := aggregate_create fs files [] k r (by simp) hlk
  refine ⟨hcount, fun hnd => ?_⟩
  rw [containCount, List.dedup_eq_self.mpr (List.Nodup.filter _ hnd)]

set_option maxRecDepth 100000 in
/-- Claim C3, witness: the amended theorem applied to two distinct files,
one containing `#abc`. -/
theorem C3_count_files_witness :
    ColorRecord.count
        (ColorRecord.mk "#aabbcc" 1 ["#abc"] true "hex" (some "blue") ["one.css"])
      = containCount (fun p => if p = "one.css" then some "x: #abc;" else some "y")
          ["one.css", "two.css"] "#aabbcc" :=
  (C3_count_files (fun p => if p = "one.css" then some "x: #abc;" else some "y")
    ["one.css", "two.css"] "#aabbcc"
    (ColorRecord.mk "#aabbcc" 1 ["#abc"] true "hex" (some "blue") ["one.css"])
    (by decide)).1

set_option maxRecDepth 100000 in
/-- Claim C4, counterexample: with the same path processed twice, `unique`
is `false` although the color has been seen in exactly one distinct
file. -/
theorem C4_counterexample :
    (lookupA (aggregate (fun p => if p = "a.css" then some "color: #fff" else none)
        ["a.css", "a.css"]) "#ffffff").map (fun r => r.unique) = some false ∧
    ((["a.css", "a.css"].filter (fun p => (lookupA (analyze_file
        (fun q => if q = "a.css" then some "color: #fff" else none) p).1
          "#ffffff").isSome)).dedup).length = 1 := by
  refine ⟨by decide, by decide⟩

/-- Claim C4, amended: over a duplicate-free file sequence, after any
processed prefix a record's `unique` flag is true exactly when the color
has been seen in exactly one file of that prefix; since the number of
containing files only grows along prefixes, the flag is false permanently
once a second file contributes. -/
theorem C4_unique_iff :
    ∀ (fs : String → Option String) (pfx suf : List String) (k : String) (r : ColorRecord),
      (pfx ++ suf).Nodup →
      lookupA (aggregate fs pfx) k = some r →
      (r.unique = true ↔
        ((pfx.filter (fun p => (lookupA (analyze_file fs p).1 k).isSome)).dedup).length
          = 1) := by
  intro fs pfx suf k r hnd hlk
  have hpnd : pfx.Nodup := (List.nodup_append.mp hnd).1
  obtain ⟨-, -, -, -, huniq⟩ := aggregate_create fs pfx [] k r (by simp) hlk
  rw [List.dedup_eq_self.mpr (List.Nodup.filter _ hpnd), huniq]
  simp [containCount]

set_option maxRecDepth 100000 in
/-- Claim C4, witness: the amended theorem applied to the prefix
`["one.css"]` of the run over `["one.css", "two.css"]`. -/
theorem C4_unique_iff_witness :
    ((["one.css"] ++ ["two.css"] : List String)).Nodup ∧
    (ColorRecord.unique (ColorRecord.mk "#aabbcc" 1 ["#abc"] true "hex" (some "blue")
        ["one.css"]) = true ↔
      (((["one.css"] : List String).filter
        (fun p => (lookupA (analyze_file
          (fun q => if q = "one.css" then some "x: #abc;" else some "y") p).1
            "#aabbcc").isSome)).dedup).length = 1) :=
  ⟨by decide,
   C4_unique_iff (fun q => if q = "one.css" then some "x: #abc;" else some "y")
     ["one.css"] ["two.css"] "#aabbcc"
     (ColorRecord.mk "#aabbcc" 1 ["#abc"] true "hex" (some "blue") ["one.css"])
     (by decide) (by decide)⟩

set_option maxRecDepth 100000 in
/-- Claim C7 (code bug): the code never reaches the alpha-discarding
canonicalization the claim (and the spec's design note) describes.
`rgba(1, 2, 3, 0.5)` is matched — its r,g,b groups are (1, 2, 3), so the
claimed canonical key would be `#010203` — but `match.groups()` returns
five groups (the alpha alternation nests the group `(\.0)`) and the
four-name unpacking raises `ValueError: too many values to unpack
(expected 4)`.  Both alpha variants fail identically, no key is produced
for either, and a file holding such a literal contributes only a stderr
line and no data. -/
theorem C7_alpha_unpack_crash :
    (scan matchRGBAAt ("rgba(1, 2, 3, 0.5)").data).map (fun m => (m.r, m.g, m.b))
      = [(1, 2, 3)] ∧
    extract_colors_from_content "rgba(1, 2, 3, 0.5)"
      = Except.error "too many values to unpack (expected 4)" ∧
    extract_colors_from_content "rgba(1, 2, 3, 0.25)"
      = Except.error "too many values to unpack (expected 4)" ∧
    extract_colors_from_content "hsla(200, 50%, 50%, 0.5)"
      = Except.error "too many values to unpack (expected 4)" ∧
    analyze_file (fun p => if p = "s.css" then some "rgba(1, 2, 3, 0.5)" else none) "s.css"
      = ([], ["Error analyzing s.css"]) := by
  refine ⟨by decide, by decide, by decide, by decide, by decide⟩

/-- Claim C8: a record's `color_format` is fixed at creation from the
first variation recorded by the first file containing the color (as are
`name` and `category`), and no later file's contribution changes any of
the three — only `count`, `variations`, `unique`, `locations` are mutated
afterwards. -/
theorem C8_format_fixed :
    ∀ (fs : String → Option String) (l1 l2 : List String) (k : String) (r : ColorRecord),
      lookupA (aggregate fs l1) k = some r →
      (∃ vars, firstVars fs l1 k = some vars ∧
        r.color_format = format_of_color (vars.headD "") ∧ r.name = k ∧
        r.category = determine_color_category k) ∧
      (∃ r', lookupA (aggregate fs (l1 ++ l2)) k = some r' ∧
        r'.name = r.name ∧ r'.color_format = r.color_format ∧ r'.category = r.category) := by
  intro fs l1 l2 k r hlk
  constructor
  · obtain ⟨hn, hc, ⟨vars, hv1, hv2⟩, -, -⟩ := aggregate_create fs l1 [] k r (by simp) hlk
    exact ⟨vars, hv1, hv2, hn, hc⟩
  · have hagg : aggregate fs (l1 ++ l2) =
        l2.foldl (fun d p => addFileColors d p (analyze_file fs p).1) (aggregate fs l1) := by
      rw [aggregate, List.foldl_append]
      rfl
    obtain ⟨r', h1, h2, h3, h4, -, -⟩ := aggregate_preserve fs l2 (aggregate fs l1) k r hlk
    exact ⟨r', by rw [hagg]; exact h1, h2, h3, h4⟩

set_option maxRecDepth 100000 in
/-- Claim C8, witness: a color first seen as `#abc` (format `hex`) keeps
`color_format = "hex"` after a second file contributes the same color
spelled `rgb(170, 187, 204)`. -/
theorem C8_format_fixed_witness :
    (lookupA (aggregate
        (fun p => if p = "a.css" then some "#abc"
          else if p = "b.css" then some "rgb(170, 187, 204)" else none)
        (["a.css"] ++ ["b.css"])) "#aabbcc").map (fun r => r.color_format) = some "hex" := by
  obtain ⟨r', h1, -, h3, -⟩ := (C8_format_fixed
    (fun p => if p = "a.css" then some "#abc"
      else if p = "b.css" then some "rgb(170, 187, 204)" else none)
    ["a.css"] ["b.css"] "#aabbcc"
    (ColorRecord.mk "#aabbcc" 1 ["#abc"] true "hex" (some "blue") ["a.css"])
    (by decide)).2
  rw [h1]
  simp [h3]

/-- Claim C9: a file whose read fails yields the empty extraction result
plus a message on the stderr channel (modelled as a component separate
from the report data); the aggregation and the report are exactly those of
the run without that file, so processing continues and the failure is
never fatal. -/
theorem C9_read_failure :
    ∀ (fs : String → Option String) (p : String), fs p = none →
      ∀ l1 l2 : List String,
      analyze_file fs p = ([], ["Error analyzing " ++ p]) ∧
      aggregate fs (l1 ++ p :: l2) = aggregate fs (l1 ++ l2) ∧
      process_files fs (l1 ++ p :: l2) = process_files fs (l1 ++ l2) ∧
      ("Error analyzing " ++ p) ∈ process_files_stderr fs (l1 ++ p :: l2) := by
  intro fs p hp l1 l2
  refine ⟨by rw [analyze_file, hp], aggregate_skip hp l1 l2, ?_, stderr_mem hp l1 l2⟩
  rw [process_files, process_files, aggregate_skip hp l1 l2]

set_option maxRecDepth 100000 in
/-- Claim C9, witness: the theorem applied to a run over an unreadable
`bad.css` followed by a readable `ok.css`. -/
theorem C9_read_failure_witness :
    (fun p => if p = "ok.css" then some "color: red" else none) "bad.css" = none ∧
    analyze_file (fun p => if p = "ok.css" then some "color: red" else none) "bad.css"
      = ([], ["Error analyzing " ++ "bad.css"]) ∧
    aggregate (fun p => if p = "ok.css" then some "color: red" else none)
        ([] ++ "bad.css" :: ["ok.css"])
      = aggregate (fun p => if p = "ok.css" then some "color: red" else none) ([] ++ ["ok.css"]) ∧
    process_files (fun p => if p = "ok.css" then some "color: red" else none)
        ([] ++ "bad.css" :: ["ok.css"])
      = process_files (fun p => if p = "ok.css" then some "color: red" else none)
          ([] ++ ["ok.css"]) ∧
    ("Error analyzing " ++ "bad.css") ∈ process_files_stderr
        (fun p => if p = "ok.css" then some "color: red" else none)
        ([] ++ "bad.css" :: ["ok.css"]) :=
  ⟨by decide,
   C9_read_failure (fun p => if p = "ok.css" then some "color: red" else none) "bad.css"
     (by decide) [] ["ok.css"]⟩

/-- Claim C10: the watch loop records every file's modification time
before the first poll and emits nothing at startup (an empty poll trace
emits no report); if no poll ever observes a timestamp strictly greater
than the initially recorded value of a tracked file, no report is ever
produced; and whenever an iteration reports, some tracked file was
observed with a modification time strictly greater than its last recorded
value. -/
theorem C10_watch :
    ∀ (files : List String) (mt0 : String → Option Nat) (polls : List (String → Option Nat)),
      watch_emits files mt0 [] = [] ∧
      ((∀ poll ∈ polls, ∀ f ∈ files, ∀ m, poll f = some m → m ≤ (mt0 f).getD 0) →
        ∀ b ∈ watch_emits files mt0 polls, b = false) ∧
      (∀ (poll : String → Option Nat) (st st' : List (String × Nat)),
        watch_step files poll st = (st', true) →
        ∃ f ∈ files, ∃ m, poll f = some m ∧ getTime st f < m) := by
  intro files mt0 polls
  refine ⟨rfl, ?_, ?_⟩
  · intro h b hb
    refine watch_emits_no_change files mt0 polls [] (by simp) ?_ b hb
    intro poll hpoll f hf m hm
    rw [getTime_watch_init mt0 files f hf]
    exact h poll hpoll f hf m hm
  · intro poll st st' h
    exact watch_step_true_exists poll st files st' h

/-- Claim C10, witness: the no-advance part applied to one file polled
once with an unchanged timestamp — the single emitted flag is false. -/
theorem C10_watch_witness :
    false ∈ watch_emits ["a.css"] (fun _ => some 5) [fun _ => some 5] ∧ false = false :=
  ⟨by decide,
   (C10_watch ["a.css"] (fun _ => some 5) [fun _ => some 5]).2.1
    (by
      intro poll hpoll f hf m hm
      rcases List.mem_singleton.mp hpoll with rfl
      have hm' : (5 : Nat) = m := Option.some.inj hm
      simp [← hm'])
    false (by decide)⟩
